import Mathlib

/-!
Verification of the `life-goals` scraping pipeline core
(`src/standvirtual.py`, `src/db.py`) against its specification.

The Python code is shallowly embedded: dict-shaped listing records become a
structure with `Option`/`PyVal` fields, the SQLite store becomes explicit
lists of rows threaded through the functions, and the `with con:` transaction
block becomes an `Except`-valued body whose failure restores the caller's
store.  The SQLite branch of `db.py` is modelled (`IS_PG = False`, the
default when `DATABASE_URL` is unset).
-/

/-- Value carried by one field of a Python dict record: `None`, an `int`,
or a `str`. -/
inductive PyVal where
  | none : PyVal
  | int : Int → PyVal
  | str : String → PyVal
deriving DecidableEq, Repr

/-- Python `str(x)` on a `PyVal`. -/
def pyStr : PyVal → String
  | .none => "None"
  | .int i => toString i
  | .str s => s

/-- Python truthiness of an `Option String` field (`None` and `""` are
falsy). -/
def strTruthy : Option String → Bool
  | Option.none => false
  | Option.some s => s ≠ ""

/-- Python `a or b` on two optional-string fields. -/
def pyOrS (a b : Option String) : Option String :=
  if strTruthy a then a else b

/-- Whether list `pre` begins list `l` (element-wise equality). -/
def listStartsWith {α : Type} [DecidableEq α] : List α → List α → Bool
  | _, [] => true
  | [], _ :: _ => false
  | a :: l, b :: pre => a = b && listStartsWith l pre

/-- Whether `needle` occurs contiguously inside `hay` (Python `in` on
strings, generalised to lists). -/
def listHasSub {α : Type} [DecidableEq α] : List α → List α → Bool
  | [], needle => needle.isEmpty
  | a :: l, needle => listStartsWith (a :: l) needle || listHasSub l needle

/-- Python substring test `sub in s`. -/
def pySubstr (s sub : String) : Bool :=
  listHasSub s.toList sub.toList

/-- Python `str.lower()` restricted to the character repertoire of this
code base: ASCII letters plus the accented Latin capitals appearing in the
Portuguese district data. -/
def pyCharLower (c : Char) : Char :=
  if 'A' ≤ c ∧ c ≤ 'Z' then Char.ofNat (c.toNat + 32)
  else if c = 'À' then 'à' else if c = 'Á' then 'á' else if c = 'Â' then 'â'
  else if c = 'Ã' then 'ã' else if c = 'Ç' then 'ç' else if c = 'É' then 'é'
  else if c = 'È' then 'è' else if c = 'Ê' then 'ê' else if c = 'Í' then 'í'
  else if c = 'Ó' then 'ó' else if c = 'Ô' then 'ô' else if c = 'Õ' then 'õ'
  else if c = 'Ú' then 'ú' else c

/-- Python `s.lower()`. -/
def pyLower (s : String) : String :=
  String.mk (s.toList.map pyCharLower)

/-- SQLite's built-in `lower()`: folds ASCII capitals only, leaves every
non-ASCII character (such as `É`) unchanged. -/
def sqlCharLower (c : Char) : Char :=
  if 'A' ≤ c ∧ c ≤ 'Z' then Char.ofNat (c.toNat + 32) else c

/-- SQLite `lower(s)`. -/
def sqlLower (s : String) : String :=
  String.mk (s.toList.map sqlCharLower)

/-- NFKD-decompose-then-ASCII-encode step of `db._slug`: accented Latin
letters lose their diacritic, other non-ASCII characters are dropped
(`encode("ascii", "ignore")`). -/
def stripDiacritic (c : Char) : Option Char :=
  if c.toNat < 128 then Option.some c
  else if c = 'à' ∨ c = 'á' ∨ c = 'â' ∨ c = 'ã' ∨ c = 'ä' then Option.some 'a'
  else if c = 'À' ∨ c = 'Á' ∨ c = 'Â' ∨ c = 'Ã' ∨ c = 'Ä' then Option.some 'A'
  else if c = 'è' ∨ c = 'é' ∨ c = 'ê' ∨ c = 'ë' then Option.some 'e'
  else if c = 'È' ∨ c = 'É' ∨ c = 'Ê' ∨ c = 'Ë' then Option.some 'E'
  else if c = 'ì' ∨ c = 'í' ∨ c = 'î' ∨ c = 'ï' then Option.some 'i'
  else if c = 'Ì' ∨ c = 'Í' ∨ c = 'Î' ∨ c = 'Ï' then Option.some 'I'
  else if c = 'ò' ∨ c = 'ó' ∨ c = 'ô' ∨ c = 'õ' ∨ c = 'ö' then Option.some 'o'
  else if c = 'Ò' ∨ c = 'Ó' ∨ c = 'Ô' ∨ c = 'Õ' ∨ c = 'Ö' then Option.some 'O'
  else if c = 'ù' ∨ c = 'ú' ∨ c = 'û' ∨ c = 'ü' then Option.some 'u'
  else if c = 'Ù' ∨ c = 'Ú' ∨ c = 'Û' ∨ c = 'Ü' then Option.some 'U'
  else if c = 'ç' then Option.some 'c'
  else if c = 'Ç' then Option.some 'C'
  else Option.none

/-- Lower-case ASCII letter or digit (the class `[a-z0-9]` of `db._slug`). -/
def isSlugChar (c : Char) : Bool :=
  decide (('a' ≤ c ∧ c ≤ 'z') ∨ ('0' ≤ c ∧ c ≤ '9'))

/-- Replace each maximal run of non-`[a-z0-9]` characters by one space and
strip the ends: equivalently, join the maximal `[a-z0-9]` runs with single
spaces. -/
def collapseRuns (cs : List Char) : List Char :=
  let toks := (cs.splitOnP (fun c => ¬ isSlugChar c)).filter (· ≠ [])
  (toks.intersperse [' ']).flatten

/-- Embedding of `db._slug`: strip diacritics (NFKD + ASCII-ignore), lower,
collapse non-alphanumeric runs to single spaces, strip. -/
def slug (s : String) : String :=
  String.mk (collapseRuns ((s.toList.filterMap stripDiacritic).map sqlCharLower))

/-- One row of the `regions` reference table (schema from spec §6:
`regions(id PK, level, code, name, geom_key)`). -/
structure Region where
  id : Nat
  level : String
  code : Option String
  name : String
  geom_key : String
deriving DecidableEq, Repr

/-- One row of the `region_aliases` table (spec §6:
`region_aliases(region_id REFERENCES regions, alias)`).  The `alias` column
is named `aliasName` here because `alias` is a Lean keyword. -/
structure RegionAlias where
  region_id : Nat
  aliasName : String
deriving DecidableEq, Repr

/-- A scraped listing record as built by `parse_page` and consumed by
`_normalize_and_dedupe` / `save_cars`: text fields are `Option String`
(Python `str | None`), the three numeric fields keep the loose Python
typing as `PyVal` because `_normalize_and_dedupe` coerces them. -/
structure Rec where
  listing_id : Option String
  title : Option String
  url : Option String
  city : Option String
  region : Option String
  seller_type : Option String
  price : PyVal
  currency : Option String
  brand : Option String
  fuel : Option String
  model_year : PyVal
  mileage_km : PyVal
deriving DecidableEq, Repr

/-- One persisted row of the `cars` table (`debug/create_db.py`:
`listing_id TEXT PRIMARY KEY`, `scraped_at DEFAULT (datetime('now'))`;
`region_id` added by `_ensure_region_column`).  Time is modelled as `Nat`. -/
structure Row where
  listing_id : String
  title : Option String
  url : Option String
  city : Option String
  region : Option String
  seller_type : Option String
  price : PyVal
  currency : Option String
  brand : Option String
  fuel : Option String
  model_year : PyVal
  mileage_km : PyVal
  scraped_at : Nat
  region_id : Option Nat
deriving DecidableEq, Repr

/-- The SQLite database state reachable through one connection. -/
structure DB where
  cars : List Row
  regions : List Region
  region_aliases : List RegionAlias
deriving DecidableEq, Repr

/-- The dedup/identity key `r.get("listing_id") or r.get("url")` used by
both `_normalize_and_dedupe` and `save_cars`. -/
def keyOf (r : Rec) : Option String :=
  pyOrS r.listing_id r.url

/-- A record "has a key" when the key expression is truthy. -/
def hasKey (r : Rec) : Bool :=
  strTruthy (keyOf r)

/-- Python `str(x).replace(".", "").replace(" ", "")`. -/
def stripDotsSpaces (s : String) : String :=
  String.mk (s.toList.filter (fun c => c ≠ '.' ∧ c ≠ ' '))

/-- Digits-only value of a character list, `Option.none` when empty or when
a non-digit appears. -/
def digitsVal (cs : List Char) : Option Nat :=
  if cs ≠ [] ∧ cs.all Char.isDigit then
    Option.some (cs.foldl (fun a c => a * 10 + (c.toNat - '0'.toNat)) 0)
  else Option.none

/-- Python `int(s)` on an already separator-stripped string: optional sign
followed by at least one decimal digit. -/
def pyIntOfString (s : String) : Option Int :=
  match s.toList with
  | '-' :: cs => (digitsVal cs).map (fun n => -(n : Int))
  | '+' :: cs => (digitsVal cs).map (fun n => (n : Int))
  | cs => (digitsVal cs).map (fun n => (n : Int))

/-- The local `to_int` of `_normalize_and_dedupe`:
`int(str(x).replace(".", "").replace(" ", ""))`, `None` on failure. -/
def to_int (x : PyVal) : PyVal :=
  match pyIntOfString (stripDotsSpaces (pyStr x)) with
  | Option.some i => PyVal.int i
  | Option.none => PyVal.none

/-- Numeric-field normalisation applied to each kept record in
`_normalize_and_dedupe`. -/
def normNumerics (r : Rec) : Rec :=
  { r with price := to_int r.price,
           model_year := to_int r.model_year,
           mileage_km := to_int r.mileage_km }

/-- Loop of `_normalize_and_dedupe`, threading the `seen` key set. -/
def nadLoop : List Rec → List String → List Rec
  | [], _ => []
  | r :: rs, seen =>
      match keyOf r with
      | Option.none => nadLoop rs seen
      | Option.some k =>
          if k = "" ∨ k ∈ seen then nadLoop rs seen
          else normNumerics r :: nadLoop rs (k :: seen)

/-- Embedding of `standvirtual._normalize_and_dedupe`. -/
def normalize_and_dedupe (records : List Rec) : List Rec :=
  nadLoop records []

/-- Python whitespace characters stripped by `str.strip()`. -/
def isPySpace (c : Char) : Bool :=
  c = ' ' ∨ c = '\t' ∨ c = '\n' ∨ c = '\r' ∨ c = '\x0b' ∨ c = '\x0c'

/-- Python `s.strip()`: drop leading and trailing whitespace. -/
def pyStrip (s : String) : String :=
  String.mk (((s.toList.dropWhile isPySpace).reverse.dropWhile isPySpace).reverse)

/-- Candidate string `(region or city or "").strip()` of
`resolve_region_id`. -/
def candOf (city region : Option String) : String :=
  pyStrip ((pyOrS (pyOrS region city) (Option.some "")).getD "")

/-- Tier 1 of `resolve_region_id`: first alias row (join with an existing
region) whose SQLite-lowered alias equals the Python-lowered candidate. -/
def aliasExact (db : DB) (q : String) : Option Nat :=
  db.region_aliases.findSome? (fun a =>
    if sqlLower a.aliasName = q ∧ db.regions.any (fun r => r.id = a.region_id) then
      Option.some a.region_id
    else Option.none)

/-- Tier 2 of `resolve_region_id`: first district region whose
SQLite-lowered name equals the Python-lowered candidate. -/
def nameExact (db : DB) (q : String) : Option Nat :=
  db.regions.findSome? (fun r =>
    if r.level = "district" ∧ sqlLower r.name = q then Option.some r.id
    else Option.none)

/-- SQLite `LIKE '%' || n || '%'` test: `n` occurs in `s` up to ASCII case
folding (SQLite `LIKE` is ASCII-case-insensitive; the data contains no
`%`/`_` wildcard characters). -/
def sqlLikeSub (s n : String) : Bool :=
  listHasSub (sqlLower s).toList (sqlLower n).toList

/-- Tier 3 of `resolve_region_id` as the function's docstring and the spec
describe it ("loose slug contains"): the `WITH c AS (districts UNION ALL
aliases)` scan, first row whose lowered name/alias is contained in the slug
of the candidate.  Modelled from the spec: the shipped SQLite-branch query
text (db.py lines 109-118) keeps the Postgres-style literal `%s` and `'%%'`
— `_q` rewrites only `?` — so SQLite raises `OperationalError` whenever
this tier is actually reached; this definition is the scan the spec (and
the Postgres branch) intends, and `resolve_region_id_sqlite` below is the
faithful SQLite-branch behaviour with that error path. -/
def slugContains (db : DB) (s : String) : Option Nat :=
  let cands :=
    (db.regions.filter (fun r => r.level = "district")).map
      (fun r => (r.id, sqlLower r.name))
    ++ db.region_aliases.map (fun a => (a.region_id, sqlLower a.aliasName))
  cands.findSome? (fun p =>
    if sqlLikeSub s p.2 then Option.some p.1 else Option.none)

/-- Embedding of `db.resolve_region_id` with the spec-intended tier 3:
alias exact → district-name exact → slug substring, first hit wins.
Tiers 1 and 2 are faithful to the SQLite branch as executed; tier 3 is
`slugContains`, the documented intent (see its comment) — on the real
SQLite branch reaching that tier raises `OperationalError` instead, which
`resolve_region_id_sqlite` models.  Inside `save_cars` that exception is
one of the per-record statement failures abstracted by the `fails` oracle
of `saveLoop`, so the `noFail` developments describe exactly the
exception-free executions, which never reach tier 3. -/
def resolve_region_id (db : DB) (city region : Option String) : Option Nat :=
  let cand := candOf city region
  if cand = "" then Option.none
  else
    match aliasExact db (pyLower cand) with
    | Option.some rid => Option.some rid
    | Option.none =>
        match nameExact db (pyLower cand) with
        | Option.some rid => Option.some rid
        | Option.none => slugContains db (slug cand)

/-- Faithful SQLite-branch embedding of `db.resolve_region_id`: an empty
candidate returns `None`; tiers 1 and 2 run as executed; a candidate that
misses both reaches the third `con.execute`, whose SQL still contains the
literal `%s` (a syntax error to SQLite, `_q` rewrites only `?`), so the
call raises `sqlite3.OperationalError` — modelled as `Except.error ()`. -/
def resolve_region_id_sqlite (db : DB) (city region : Option String) :
    Except Unit (Option Nat) :=
  let cand := candOf city region
  if cand = "" then Except.ok Option.none
  else
    match aliasExact db (pyLower cand) with
    | Option.some rid => Except.ok (Option.some rid)
    | Option.none =>
        match nameExact db (pyLower cand) with
        | Option.some rid => Except.ok (Option.some rid)
        | Option.none => Except.error ()

/-- Next rowid handed out by SQLite for an `INTEGER PRIMARY KEY` insert:
one more than the largest existing id. -/
def nextRegionId (rs : List Region) : Nat :=
  rs.foldl (fun m r => max m r.id) 0 + 1

/-- The 18 `(name, geom_key)` district rows of `db._seed_districts`. -/
def seedDistrictNames : List String :=
  ["Aveiro", "Beja", "Braga", "Bragança", "Castelo Branco", "Coimbra",
   "Évora", "Faro", "Guarda", "Leiria", "Lisboa", "Portalegre", "Porto",
   "Santarém", "Setúbal", "Viana do Castelo", "Vila Real", "Viseu"]

/-- The 7 `(alias, district name)` pairs of `db._seed_districts`. -/
def seedAliasPairs : List (String × String) :=
  [("Lisbon", "Lisboa"), ("Setubal", "Setúbal"), ("Evora", "Évora"),
   ("Braganca", "Bragança"), ("Santarem", "Santarém"),
   ("Viana-do-Castelo", "Viana do Castelo"), ("Vila-Real", "Vila Real")]

/-- One `INSERT OR IGNORE INTO regions` row.  Modelled from the spec:
`schema.sql` is not part of the source tree; spec §3 says the Region set is
"seeded once", so `OR IGNORE` is modelled as skip-when-a-district-with-this-
name-exists, with ids handed out sequentially. -/
def insertDistrict (rs : List Region) (nm : String) : List Region :=
  if rs.any (fun r => r.level = "district" ∧ r.name = nm) then rs
  else rs ++ [⟨nextRegionId rs, "district", Option.none, nm, nm⟩]

/-- One `INSERT OR IGNORE INTO region_aliases` row.  Modelled from the
spec, as for `insertDistrict`: skip when the `(region_id, alias)` pair is
already present. -/
def insertAlias (as' : List RegionAlias) (rid : Nat) (al : String) : List RegionAlias :=
  if as'.any (fun a => a.region_id = rid ∧ a.aliasName = al) then as'
  else as' ++ [⟨rid, al⟩]

/-- The `INSERT OR IGNORE INTO region_aliases SELECT id, <alias> FROM
regions WHERE level='district' AND name=<nm>` statement: one insert per
matching region row. -/
def insertAliasFor (rs : List Region) (as' : List RegionAlias)
    (al nm : String) : List RegionAlias :=
  (rs.filter (fun r => r.level = "district" ∧ r.name = nm)).foldl
    (fun acc r => insertAlias acc r.id al) as'

/-- Embedding of `db._seed_districts` (SQLite branch). -/
def seed_districts (db : DB) : DB :=
  let rs := seedDistrictNames.foldl insertDistrict db.regions
  let as' := seedAliasPairs.foldl
    (fun acc p => insertAliasFor rs acc p.1 p.2) db.region_aliases
  { db with regions := rs, region_aliases := as' }

/-- The `cars` row written for record `rec` under key `lid` at time `t`
with region column `rid`. -/
def rowFor (lid : String) (rec : Rec) (t : Nat) (rid : Option Nat) : Row :=
  { listing_id := lid, title := rec.title, url := rec.url,
    city := rec.city, region := rec.region,
    seller_type := rec.seller_type, price := rec.price,
    currency := rec.currency, brand := rec.brand, fuel := rec.fuel,
    model_year := rec.model_year, mileage_km := rec.mileage_km,
    scraped_at := t, region_id := rid }

/-- The `DO UPDATE` arm of the upsert: the conflicting row gets every
mutable column from the record and a refreshed `scraped_at`; `region_id`
is not in the statement and is preserved. -/
def updRow (t : Nat) (lid : String) (rec : Rec) (row : Row) : Row :=
  if row.listing_id = lid then rowFor lid rec t row.region_id else row

/-- The `INSERT ... ON CONFLICT(listing_id) DO UPDATE` statement of
`save_cars` at time `t`: update the conflicting row when the key exists,
otherwise append a fresh row with the schema defaults (`scraped_at`
defaults to now, `region_id` to null). -/
def upsertCar (t : Nat) (lid : String) (rec : Rec) (cars : List Row) : List Row :=
  if cars.any (fun row => row.listing_id = lid) then
    cars.map (updRow t lid rec)
  else
    cars ++ [rowFor lid rec t Option.none]

/-- The `UPDATE cars SET region_id = ? WHERE listing_id = ?` statement. -/
def setRegionId (lid : String) (rid : Nat) (cars : List Row) : List Row :=
  cars.map (fun row =>
    if row.listing_id = lid then { row with region_id := Option.some rid }
    else row)

/-- One iteration of the `for rec in records` loop body of `save_cars`
(skip/upsert/resolve/update), ignoring failure. -/
def stepRec (t : Nat) (db : DB) (rec : Rec) : DB :=
  match keyOf rec with
  | Option.none => db
  | Option.some lid =>
      if lid = "" then db
      else
        match resolve_region_id { db with cars := upsertCar t lid rec db.cars }
            rec.city rec.region with
        | Option.some rid =>
            { db with cars := setRegionId lid rid (upsertCar t lid rec db.cars) }
        | Option.none => { db with cars := upsertCar t lid rec db.cars }

/-- The `for rec in records` loop of `save_cars`: threads the store and the
`upserted` counter; an exception raised by a record's statements — a
persistence constraint violation, or the `OperationalError` the malformed
tier-3 region query raises when the record's candidate misses the first
two tiers — is abstracted by the oracle `fails` and aborts the loop. -/
def saveLoop (fails : Rec → Bool) (t : Nat) :
    List Rec → DB → Nat → Except Unit (DB × Nat)
  | [], db, n => Except.ok (db, n)
  | rec :: rest, db, n =>
      match keyOf rec with
      | Option.none => saveLoop fails t rest db n
      | Option.some lid =>
          if lid = "" then saveLoop fails t rest db n
          else if fails rec then Except.error ()
          else saveLoop fails t rest (stepRec t db rec) (n + 1)

/-- A `fails` oracle for runs in which no constraint violation occurs. -/
def noFail : Rec → Bool := fun _ => false

/-- Body of `save_cars`'s `with con:` block: ensure schema (modelled as the
identity — schema bootstrapping is out of the spec's scope and `schema.sql`
is not in the source tree), ensure the `region_id` column (identity, rows
always carry it here), seed the reference tables, then run the loop. -/
def saveCarsBody (fails : Rec → Bool) (t : Nat) (records : List Rec)
    (db : DB) : Except Unit (DB × Nat) :=
  saveLoop fails t records (seed_districts db) 0

/-- Embedding of `db.save_cars`: the whole body runs inside one
transaction (`with con:`), so on an exception the connection rolls back and
the caller observes the original store together with the propagated error;
on success the new store is committed and the upsert count returned. -/
def save_cars (fails : Rec → Bool) (t : Nat) (records : List Rec)
    (db : DB) : Except Unit Nat × DB :=
  match saveCarsBody fails t records db with
  | Except.ok (db', n) => (Except.ok n, db')
  | Except.error e => (Except.error e, db)

/-- Seller-line classification of `_extract_location_and_seller`
(src/standvirtual.py line 119): substring match against the two labels,
`None` otherwise. -/
def sellerTypeOf (stxt : String) : Option String :=
  if pySubstr stxt "Profissional" then Option.some "Profissional"
  else if pySubstr stxt "Particular" then Option.some "Particular"
  else Option.none

/-- Observable side effects of one `run_scrape` execution, in program
order: the HTTP fetch of a page, the parse of its markup, the synchronous
`on_progress` callback, and the politeness sleep. -/
inductive Event where
  | fetch : Nat → Event
  | parse : Nat → Event
  | progress : Nat → Event
  | sleep : Nat → Event
deriving DecidableEq, Repr

/-- Environment of a run: `fetch_html` (which may raise a transport or
HTTP-status error) and `parse_page` (pure DOM extraction), both treated as
oracles keyed by, respectively, page number and markup. -/
structure Env where
  fetchHtml : Nat → Except Unit String
  parsePage : String → List Rec

/-- Summary dict returned by `run_scrape`. -/
structure Summary where
  pages_fetched : Nat
  raw_records : Nat
  cleaned_records : Nat
  upserted : Nat
deriving DecidableEq, Repr

/-- The `for p in range(1, total_pages + 1)` loop of `run_scrape`,
parameterised by the current page `p` and the number of remaining
iterations: fetch (propagating failure), parse, fire `on_progress`, break
on an empty card list, else accumulate, count, sleep.  Returns the
accumulated records, the `pages_fetched` counter and the event trace. -/
def scrapePages (env : Env) : Nat → Nat → Except Unit (List Rec × Nat × List Event)
  | _, 0 => Except.ok ([], 0, [])
  | p, remaining + 1 =>
      match env.fetchHtml p with
      | Except.error e => Except.error e
      | Except.ok html =>
          let recs := env.parsePage html
          let evs := [Event.fetch p, Event.parse p, Event.progress p]
          if recs = [] then Except.ok ([], 0, evs)
          else
            match scrapePages env (p + 1) remaining with
            | Except.error e => Except.error e
            | Except.ok (rest, n, evs') =>
                Except.ok (recs ++ rest, n + 1, evs ++ [Event.sleep p] ++ evs')

/-- Embedding of `standvirtual.run_scrape`: loop over the requested pages,
then normalize+dedupe and `save_cars` the whole in-memory batch.  A fetch
failure or a persistence failure propagates; the returned `DB` is the
caller's store (unchanged when an exception propagates, since `save_cars`
either was never reached or rolled back). -/
def run_scrape (env : Env) (fails : Rec → Bool) (pages : Nat) (t : Nat)
    (db : DB) : Except Unit Summary × DB × List Event :=
  match scrapePages env 1 pages with
  | Except.error e => (Except.error e, db, [])
  | Except.ok (all_recs, pages_fetched, evs) =>
      let cleaned := normalize_and_dedupe all_recs
      match save_cars fails t cleaned db with
      | (Except.error e, db') => (Except.error e, db', evs)
      | (Except.ok upserted, db') =>
          (Except.ok { pages_fetched := pages_fetched,
                       raw_records := all_recs.length,
                       cleaned_records := cleaned.length,
                       upserted := upserted }, db', evs)

/-- The empty SQLite database (fresh `scraper.db`). -/
def emptyDB : DB := ⟨[], [], []⟩

/-- The reference tables after one seeding pass over the empty database. -/
def seededDB : DB := seed_districts emptyDB

lemma keyOf_normNumerics (r : Rec) : keyOf (normNumerics r) = keyOf r := rfl

lemma hasKey_normNumerics (r : Rec) : hasKey (normNumerics r) = hasKey r := rfl

lemma nadLoop_cons_none {r : Rec} {rs : List Rec} {seen : List String}
    (h : keyOf r = Option.none) : nadLoop (r :: rs) seen = nadLoop rs seen := by
  simp [nadLoop, h]

lemma nadLoop_cons_drop {r : Rec} {rs : List Rec} {seen : List String} {k : String}
    (h : keyOf r = Option.some k) (hd : k = "" ∨ k ∈ seen) :
    nadLoop (r :: rs) seen = nadLoop rs seen := by
  simp only [nadLoop, h, if_pos hd]

lemma nadLoop_cons_keep {r : Rec} {rs : List Rec} {seen : List String} {k : String}
    (h : keyOf r = Option.some k) (hd : ¬ (k = "" ∨ k ∈ seen)) :
    nadLoop (r :: rs) seen = normNumerics r :: nadLoop rs (k :: seen) := by
  simp only [nadLoop, h, if_neg hd]

lemma hasKey_false_of_none {r : Rec} (h : keyOf r = Option.none) : hasKey r = false := by
  simp [hasKey, h, strTruthy]

lemma hasKey_false_of_empty {r : Rec} (h : keyOf r = Option.some "") : hasKey r = false := by
  simp [hasKey, h, strTruthy]

lemma hasKey_true_of_some {r : Rec} {k : String} (h : keyOf r = Option.some k)
    (hk : k ≠ "") : hasKey r = true := by
  simp [hasKey, h, strTruthy, hk]

lemma filter_hasKey_cons_false {r : Rec} {rs : List Rec} (h : hasKey r = false) :
    (r :: rs).filter hasKey = rs.filter hasKey := by
  simp [List.filter_cons, h]

lemma filter_hasKey_cons_true {r : Rec} {rs : List Rec} (h : hasKey r = true) :
    (r :: rs).filter hasKey = r :: rs.filter hasKey := by
  simp [List.filter_cons, h]

lemma nadLoop_all_hasKey (R : List Rec) : ∀ seen, (nadLoop R seen).all hasKey = true := by
  induction R with
  | nil => intro seen; rfl
  | cons r rs ih =>
      intro seen
      cases hk : keyOf r with
      | none => rw [nadLoop_cons_none hk]; exact ih seen
      | some k =>
          by_cases hdrop : k = "" ∨ k ∈ seen
          · rw [nadLoop_cons_drop hk hdrop]; exact ih seen
          · have hk' : hasKey (normNumerics r) = true := by
              rw [hasKey_normNumerics]
              exact hasKey_true_of_some hk (fun h => hdrop (Or.inl h))
            rw [nadLoop_cons_keep hk hdrop, List.all_cons, hk', ih (k :: seen)]
            rfl

lemma nadLoop_countP_le (R : List Rec) :
    ∀ seen (k : String),
      (nadLoop R seen).countP (fun r => keyOf r == Option.some k) ≤
        (if k ∈ seen then 0 else 1) := by
  induction R with
  | nil =>
      intro seen k
      simp only [nadLoop, List.countP_nil]
      split <;> omega
  | cons r rs ih =>
      intro seen k
      cases hk : keyOf r with
      | none => rw [nadLoop_cons_none hk]; exact ih seen k
      | some kr =>
          by_cases hdrop : kr = "" ∨ kr ∈ seen
          · rw [nadLoop_cons_drop hk hdrop]; exact ih seen k
          · rw [nadLoop_cons_keep hk hdrop]
            by_cases hkk : kr = k
            · subst hkk
              have h2 := ih (kr :: seen) kr
              rw [if_pos (List.mem_cons_self kr seen)] at h2
              have hks : kr ∉ seen := fun h => hdrop (Or.inr h)
              rw [if_neg hks]
              rw [List.countP_cons_of_pos _ _ (by rw [keyOf_normNumerics]; simp [hk])]
              omega
            · have h2 := ih (kr :: seen) k
              rw [List.countP_cons_of_neg _ _ (by rw [keyOf_normNumerics]; simp [hk, hkk])]
              by_cases hks : k ∈ seen
              · rw [if_pos hks]
                rw [if_pos (by simp [List.mem_cons, hks])] at h2
                omega
              · rw [if_neg hks]
                rw [if_neg (by simp [List.mem_cons, Ne.symm hkk, hks])] at h2
                omega

lemma nadLoop_find? (R : List Rec) :
    ∀ seen (k : String), k ∉ seen →
      (nadLoop R seen).find? (fun r => keyOf r == Option.some k) =
        ((R.filter hasKey).find? (fun r => keyOf r == Option.some k)).map normNumerics := by
  induction R with
  | nil => intro seen k _; rfl
  | cons r rs ih =>
      intro seen k hks
      cases hk : keyOf r with
      | none =>
          rw [nadLoop_cons_none hk, filter_hasKey_cons_false (hasKey_false_of_none hk)]
          exact ih seen k hks
      | some kr =>
          by_cases hempty : kr = ""
          · subst hempty
            rw [nadLoop_cons_drop hk (Or.inl rfl),
              filter_hasKey_cons_false (hasKey_false_of_empty hk)]
            exact ih seen k hks
          · have hhk : hasKey r = true := hasKey_true_of_some hk hempty
            by_cases hseen : kr ∈ seen
            · have hne : kr ≠ k := fun h => hks (h ▸ hseen)
              rw [nadLoop_cons_drop hk (Or.inr hseen), filter_hasKey_cons_true hhk,
                List.find?_cons_of_neg _ (by simp [hk, hne])]
              exact ih seen k hks
            · have hdrop : ¬ (kr = "" ∨ kr ∈ seen) := by tauto
              by_cases hkk : kr = k
              · subst hkk
                rw [nadLoop_cons_keep hk hdrop, filter_hasKey_cons_true hhk,
                  List.find?_cons_of_pos _ (by rw [keyOf_normNumerics]; simp [hk]),
                  List.find?_cons_of_pos _ (by simp [hk])]
                rfl
              · have hks' : k ∉ kr :: seen := by
                  simp only [List.mem_cons, not_or]
                  exact ⟨Ne.symm hkk, hks⟩
                rw [nadLoop_cons_keep hk hdrop, filter_hasKey_cons_true hhk,
                  List.find?_cons_of_neg _ (by rw [keyOf_normNumerics]; simp [hk, hkk]),
                  List.find?_cons_of_neg _ (by simp [hk, hkk])]
                exact ih (kr :: seen) k hks'

lemma nadLoop_sublist (R : List Rec) :
    ∀ seen, (nadLoop R seen).Sublist ((R.filter hasKey).map normNumerics) := by
  induction R with
  | nil => intro seen; simp [nadLoop]
  | cons r rs ih =>
      intro seen
      cases hk : keyOf r with
      | none =>
          rw [nadLoop_cons_none hk, filter_hasKey_cons_false (hasKey_false_of_none hk)]
          exact ih seen
      | some kr =>
          by_cases hempty : kr = ""
          · subst hempty
            rw [nadLoop_cons_drop hk (Or.inl rfl),
              filter_hasKey_cons_false (hasKey_false_of_empty hk)]
            exact ih seen
          · have hhk : hasKey r = true := hasKey_true_of_some hk hempty
            by_cases hseen : kr ∈ seen
            · rw [nadLoop_cons_drop hk (Or.inr hseen), filter_hasKey_cons_true hhk,
                List.map_cons]
              exact (ih seen).cons (normNumerics r)
            · have hdrop : ¬ (kr = "" ∨ kr ∈ seen) := by tauto
              rw [nadLoop_cons_keep hk hdrop, filter_hasKey_cons_true hhk, List.map_cons]
              exact (ih (kr :: seen)).cons₂ (normNumerics r)

/-- C4: `_normalize_and_dedupe` keys records by `listing_id` with fallback
to `url`, keeps exactly the first occurrence per key in arrival order
(values from that first occurrence, numerics normalised, no merging),
silently discards later records with the same key, and drops every record
with neither identity field. -/
theorem normalize_and_dedupe_first_occurrence (R : List Rec) (k : String) :
    (normalize_and_dedupe R).all hasKey = true ∧
    (normalize_and_dedupe R).countP (fun r => keyOf r == Option.some k) ≤ 1 ∧
    (normalize_and_dedupe R).find? (fun r => keyOf r == Option.some k) =
      ((R.filter hasKey).find? (fun r => keyOf r == Option.some k)).map normNumerics ∧
    (normalize_and_dedupe R).Sublist ((R.filter hasKey).map normNumerics) := by
  refine ⟨nadLoop_all_hasKey R [], ?_, nadLoop_find? R [] k (by simp), nadLoop_sublist R []⟩
  simpa using nadLoop_countP_le R [] k

/-- C8 counterexample: for the seller line `"Stand ABC"`, which matches
neither classification label, the code yields `None` — not the raw text
`"Stand ABC"` the claim predicts. -/
theorem sellerType_default_counterexample :
    sellerTypeOf "Stand ABC" = Option.none ∧
    sellerTypeOf "Stand ABC" ≠ Option.some "Stand ABC" := by
  refine ⟨by decide, ?_⟩
  intro h
  rw [show sellerTypeOf "Stand ABC" = Option.none from by decide] at h
  exact Option.noConfusion h

/-- C8 (amended): the seller line is classified into the closed label set
by substring match — `"Profissional"` wins over `"Particular"` — and when
no label matches the `seller_type` field is null (`None`), not the raw
text. -/
theorem sellerType_closed_set_null_default (s : String) :
    (∀ v, sellerTypeOf s = Option.some v → v = "Profissional" ∨ v = "Particular") ∧
    (pySubstr s "Profissional" = true → sellerTypeOf s = Option.some "Profissional") ∧
    (pySubstr s "Profissional" = false → pySubstr s "Particular" = true →
      sellerTypeOf s = Option.some "Particular") ∧
    (pySubstr s "Profissional" = false → pySubstr s "Particular" = false →
      sellerTypeOf s = Option.none) := by
  refine ⟨?_, ?_, ?_, ?_⟩
  · intro v hv
    unfold sellerTypeOf at hv
    split at hv
    · exact Or.inl (Option.some.inj hv).symm
    · split at hv
      · exact Or.inr (Option.some.inj hv).symm
      · exact absurd hv (by simp)
  · intro h1; simp [sellerTypeOf, h1]
  · intro h1 h2; simp [sellerTypeOf, h1, h2]
  · intro h1 h2; simp [sellerTypeOf, h1, h2]

/-- Witness for the amended C8 theorem at concrete seller lines. -/
theorem sellerType_closed_set_null_default_witness :
    sellerTypeOf "Anúncio do Stand" = Option.none ∧
    sellerTypeOf "Vendedor Particular" = Option.some "Particular" := by
  constructor
  · exact (sellerType_closed_set_null_default "Anúncio do Stand").2.2.2 (by decide) (by decide)
  · exact (sellerType_closed_set_null_default "Vendedor Particular").2.2.1 (by decide) (by decide)

/-- C6: on the seeded reference set the claim fails on the shipped code:
`"Evora"` resolves via the tier-1 alias to the district Évora's id, but
`"Évora"` misses tier 1 (the alias lowers to `"evora"`, the Python-lowered
candidate is `"évora"`) and tier 2 (SQLite `lower()` leaves `É` in the
stored name while Python folds it), and reaching tier 3 raises
`OperationalError` because the query text keeps the literal `%s` — so the
call raises instead of returning the same non-null `region_id`.  The last
conjunct shows the claim states the intent: under the documented tier-3
slug scan, `"Évora"` would resolve to the very same district id. -/
theorem evora_diacritic_code_bug :
    resolve_region_id_sqlite seededDB Option.none (Option.some "Evora") =
      Except.ok (Option.some 7) ∧
    resolve_region_id_sqlite seededDB Option.none (Option.some "Évora") =
      Except.error () ∧
    (seededDB.regions.find? (fun r => r.name = "Évora")).map Region.id =
      Option.some 7 ∧
    resolve_region_id seededDB Option.none (Option.some "Évora") =
      Option.some 7 := by
  refine ⟨rfl, rfl, by decide, by decide⟩

/-- C5: the three resolution tiers of `resolve_region_id` are applied in
fixed order and the first hit wins: whenever the candidate string matches
some alias exactly (case-insensitively) — even if it also contains a
district slug as a substring, so that tier 3 would fire too — the alias
tier's region id is returned. -/
theorem resolve_alias_tier_precedence (db : DB) (city region : Option String) (rid : Nat)
    (hcand : candOf city region ≠ "")
    (halias : aliasExact db (pyLower (candOf city region)) = Option.some rid)
    (hsub : ∃ r ∈ db.regions, r.level = "district" ∧
      sqlLikeSub (slug (candOf city region)) (sqlLower r.name) = true) :
    resolve_region_id db city region = Option.some rid := by
  unfold resolve_region_id
  rw [if_neg hcand, halias]

/-- Witness for the C5 theorem: a candidate that is an exact alias of one
region while containing another district's slug; the alias region wins. -/
theorem resolve_alias_tier_precedence_witness :
    resolve_region_id
        ⟨[], [⟨1, "district", Option.none, "braga", "braga"⟩,
              ⟨2, "district", Option.none, "evorax", "evorax"⟩],
         [⟨2, "braga evora"⟩]⟩
        Option.none (Option.some "braga evora") = Option.some 2 ∧
    slugContains
        ⟨[], [⟨1, "district", Option.none, "braga", "braga"⟩,
              ⟨2, "district", Option.none, "evorax", "evorax"⟩],
         [⟨2, "braga evora"⟩]⟩ (slug "braga evora") = Option.some 1 := by
  constructor
  · exact resolve_alias_tier_precedence _ _ _ 2 (by decide) (by decide)
      ⟨⟨1, "district", Option.none, "braga", "braga"⟩, by decide, by decide, by decide⟩
  · decide

/-- Pure effect of the `save_cars` record loop on the store (no failures):
fold of the per-record step. -/
def runRecs (t : Nat) (db : DB) (R : List Rec) : DB :=
  R.foldl (stepRec t) db

lemma stepRec_skip {t : Nat} {db : DB} {r : Rec} (h : hasKey r = false) :
    stepRec t db r = db := by
  cases hk : keyOf r with
  | none => simp [stepRec, hk]
  | some k =>
      have hke : k = "" := by
        by_contra hne
        rw [hasKey_true_of_some hk hne] at h
        exact Bool.true_eq_false.mp h
      subst hke
      simp [stepRec, hk]

lemma stepRec_keyed {t : Nat} {db : DB} {r : Rec} {k : String}
    (hk : keyOf r = Option.some k) (hke : k ≠ "") :
    stepRec t db r =
      (match resolve_region_id { db with cars := upsertCar t k r db.cars }
          r.city r.region with
       | Option.some rid =>
           { db with cars := setRegionId k rid (upsertCar t k r db.cars) }
       | Option.none => { db with cars := upsertCar t k r db.cars }) := by
  simp [stepRec, hk, hke]

lemma saveLoop_cons_none {f : Rec → Bool} {t : Nat} {r : Rec} {rs : List Rec}
    {db : DB} {n : Nat} (h : keyOf r = Option.none) :
    saveLoop f t (r :: rs) db n = saveLoop f t rs db n := by
  simp [saveLoop, h]

lemma saveLoop_cons_empty {f : Rec → Bool} {t : Nat} {r : Rec} {rs : List Rec}
    {db : DB} {n : Nat} (h : keyOf r = Option.some "") :
    saveLoop f t (r :: rs) db n = saveLoop f t rs db n := by
  simp [saveLoop, h]

lemma saveLoop_cons_fail {f : Rec → Bool} {t : Nat} {r : Rec} {rs : List Rec}
    {db : DB} {n : Nat} {k : String} (h : keyOf r = Option.some k) (hke : k ≠ "")
    (hf : f r = true) :
    saveLoop f t (r :: rs) db n = Except.error () := by
  simp [saveLoop, h, hke, hf]

lemma saveLoop_cons_step {f : Rec → Bool} {t : Nat} {r : Rec} {rs : List Rec}
    {db : DB} {n : Nat} {k : String} (h : keyOf r = Option.some k) (hke : k ≠ "")
    (hf : f r = false) :
    saveLoop f t (r :: rs) db n = saveLoop f t rs (stepRec t db r) (n + 1) := by
  simp [saveLoop, h, hke, hf]

lemma saveLoop_noFail (t : Nat) :
    ∀ (R : List Rec) (db : DB) (n : Nat),
      saveLoop noFail t R db n = Except.ok (runRecs t db R, n + R.countP hasKey) := by
  intro R
  induction R with
  | nil => intro db n; simp [saveLoop, runRecs]
  | cons r rs ih =>
      intro db n
      cases hk : keyOf r with
      | none =>
          have hhk : hasKey r = false := hasKey_false_of_none hk
          rw [saveLoop_cons_none hk, ih db n,
            List.countP_cons_of_neg _ _ (by simp [hhk])]
          simp only [runRecs, List.foldl_cons, stepRec_skip hhk]
      | some k =>
          by_cases hke : k = ""
          · subst hke
            have hhk : hasKey r = false := hasKey_false_of_empty hk
            rw [saveLoop_cons_empty hk, ih db n,
              List.countP_cons_of_neg _ _ (by simp [hhk])]
            simp only [runRecs, List.foldl_cons, stepRec_skip hhk]
          · have hhk : hasKey r = true := hasKey_true_of_some hk hke
            rw [saveLoop_cons_step hk hke rfl, ih (stepRec t db r) (n + 1),
              List.countP_cons_of_pos _ _ (by simp [hhk])]
            simp only [runRecs, List.foldl_cons]
            exact congrArg _ (congrArg _ (by omega))

lemma save_cars_noFail (t : Nat) (R : List Rec) (db : DB) :
    save_cars noFail t R db =
      (Except.ok (R.countP hasKey), runRecs t (seed_districts db) R) := by
  unfold save_cars saveCarsBody
  rw [saveLoop_noFail t R (seed_districts db) 0]
  simp

lemma listStartsWith_append {α : Type} [DecidableEq α] (b rest : List α) :
    listStartsWith (b ++ rest) b = true := by
  induction b with
  | nil => cases rest <;> rfl
  | cons a l ih => simpa [listStartsWith] using ih

lemma listHasSub_of_startsWith {α : Type} [DecidableEq α] {l b : List α}
    (h : listStartsWith l b = true) : listHasSub l b = true := by
  cases l with
  | nil =>
      cases b with
      | nil => rfl
      | cons x xs => exact absurd h (by simp [listStartsWith])
  | cons a t => simp [listHasSub, h]

lemma listHasSub_self_append {α : Type} [DecidableEq α] (b rest : List α) :
    listHasSub (b ++ rest) b = true :=
  listHasSub_of_startsWith (listStartsWith_append b rest)

lemma listHasSub_append_left {α : Type} [DecidableEq α] (a : List α) {l b : List α}
    (h : listHasSub l b = true) : listHasSub (a ++ l) b = true := by
  induction a with
  | nil => simpa using h
  | cons x xs ih =>
      have : listHasSub (x :: (xs ++ l)) b =
          (listStartsWith (x :: (xs ++ l)) b || listHasSub (xs ++ l) b) := rfl
      simp only [List.cons_append, this, ih, Bool.or_true]

lemma scrapePages_fetch_error {env : Env} {p rem : Nat}
    (h : env.fetchHtml p = Except.error ()) :
    scrapePages env p (rem + 1) = Except.error () := by
  simp [scrapePages, h]

lemma scrapePages_stop {env : Env} {p rem : Nat} {html : String}
    (h : env.fetchHtml p = Except.ok html) (hp : env.parsePage html = []) :
    scrapePages env p (rem + 1) =
      Except.ok ([], 0, [Event.fetch p, Event.parse p, Event.progress p]) := by
  simp [scrapePages, h, hp]

lemma scrapePages_go {env : Env} {p rem : Nat} {html : String}
    (h : env.fetchHtml p = Except.ok html) (hp : env.parsePage html ≠ []) :
    scrapePages env p (rem + 1) =
      (match scrapePages env (p + 1) rem with
       | Except.error e => Except.error e
       | Except.ok (rest, n, evs') =>
           Except.ok (env.parsePage html ++ rest, n + 1,
             [Event.fetch p, Event.parse p, Event.progress p] ++
               [Event.sleep p] ++ evs')) := by
  simp [scrapePages, h, hp]

lemma scrapePages_progress_block (env : Env) :
    ∀ (rem p : Nat) (recs : List Rec) (n : Nat) (evs : List Event),
      scrapePages env p rem = Except.ok (recs, n, evs) →
      ∀ i, Event.progress i ∈ evs →
        listHasSub evs [Event.fetch i, Event.parse i, Event.progress i] = true := by
  intro rem
  induction rem with
  | zero =>
      intro p recs n evs h i hi
      obtain ⟨h1, h2, h3⟩ := by
        simpa only [scrapePages, Except.ok.injEq, Prod.mk.injEq] using h
      subst h3
      exact absurd hi (List.not_mem_nil _)
  | succ rem ih =>
      intro p recs n evs h i hi
      cases hf : env.fetchHtml p with
      | error e =>
          cases e
          rw [scrapePages_fetch_error hf] at h
          exact Except.noConfusion h
      | ok html =>
          by_cases hp : env.parsePage html = []
          · rw [scrapePages_stop hf hp] at h
            obtain ⟨h1, h2, h3⟩ := by
              simpa only [Except.ok.injEq, Prod.mk.injEq] using h
            subst h3
            have hip : i = p := by simpa using hi
            rw [hip]
            simpa using listHasSub_self_append
              [Event.fetch p, Event.parse p, Event.progress p] ([] : List Event)
          · rw [scrapePages_go hf hp] at h
            cases hrec : scrapePages env (p + 1) rem with
            | error e =>
                rw [hrec] at h
                exact Except.noConfusion h
            | ok out =>
                obtain ⟨rest, m, evs'⟩ := out
                rw [hrec] at h
                obtain ⟨h1, h2, h3⟩ := by
                  simpa only [Except.ok.injEq, Prod.mk.injEq] using h
                subst h3
                simp only [List.mem_append, List.mem_cons, List.not_mem_nil,
                  or_false] at hi
                rcases hi with hleft | hright
                · have hip : i = p := by
                    rcases hleft with (h2 | h2 | h2) | h2 <;> simp_all
                  rw [hip, List.append_assoc]
                  exact listHasSub_self_append _ _
                · exact listHasSub_append_left _
                    (ih (p + 1) rest m evs' hrec i hright)

/-- Index of the first occurrence of an event in a trace (length when
absent). -/
def idxOfEv : List Event → Event → Nat
  | [], _ => 0
  | e :: l, x => if e = x then 0 else idxOfEv l x + 1

/-- The `pages_fetched` counter of a successful run result. -/
def okPagesFetched : Except Unit Summary → Option Nat
  | Except.ok s => Option.some s.pages_fetched
  | Except.error _ => Option.none

/-- A sample parsed listing record used by the concrete runs. -/
def cexRec : Rec :=
  { listing_id := Option.some "A1", title := Option.some "Fiat Punto",
    url := Option.some "u1", city := Option.some "Lisboa",
    region := Option.none, seller_type := Option.none,
    price := PyVal.int 5000, currency := Option.some "EUR",
    brand := Option.some "Fiat", fuel := Option.some "Diesel",
    model_year := PyVal.int 2010, mileage_km := PyVal.int 100000 }

/-- Concrete environment: page 1 has one card, every later fetch raises. -/
def cexEnv : Env where
  fetchHtml := fun p => if p = 1 then Except.ok "h1" else Except.error ()
  parsePage := fun h => if h = "h1" then [cexRec] else []

/-- Concrete environment: page 1 has one card, page 2 is empty, later
pages would have cards again (they must never be fetched). -/
def stopEnv : Env where
  fetchHtml := fun p => if p = 1 then Except.ok "h1" else Except.ok "h2"
  parsePage := fun h => if h = "h1" then [cexRec] else []

lemma run_scrape_trace_eq {env : Env} {fails : Rec → Bool} {pages t : Nat}
    {db : DB} {all : List Rec} {n : Nat} {evs : List Event}
    (h : scrapePages env 1 pages = Except.ok (all, n, evs)) :
    (run_scrape env fails pages t db).2.2 = evs := by
  simp only [run_scrape, h]
  rcases hsc : save_cars fails t (normalize_and_dedupe all) db with ⟨res, db'⟩
  cases res <;> rfl

/-- C9 counterexample: in a concrete one-page run the trace is
`[fetch 1, parse 1, progress 1, sleep 1]` — the parse of page 1 occurs
strictly before the progress callback, refuting "invoked after the fetch
completes and before the parsing begins". -/
theorem progress_after_parse_counterexample :
    (run_scrape cexEnv noFail 1 0 emptyDB).2.2 =
      [Event.fetch 1, Event.parse 1, Event.progress 1, Event.sleep 1] ∧
    idxOfEv (run_scrape cexEnv noFail 1 0 emptyDB).2.2 (Event.parse 1) <
      idxOfEv (run_scrape cexEnv noFail 1 0 emptyDB).2.2 (Event.progress 1) ∧
    ¬ idxOfEv (run_scrape cexEnv noFail 1 0 emptyDB).2.2 (Event.progress 1) <
        idxOfEv (run_scrape cexEnv noFail 1 0 emptyDB).2.2 (Event.parse 1) := by
  refine ⟨?_, ?_, ?_⟩ <;> decide

/-- C9 (amended): in every run, the progress callback for page `i` fires
synchronously immediately after the fetch *and the parse* of page `i` —
the trace always contains the contiguous block
`[fetch i, parse i, progress i]` — not between fetch and parse. -/
theorem progress_callback_ordering (env : Env) (fails : Rec → Bool)
    (pages t : Nat) (db : DB) (i : Nat)
    (hmem : Event.progress i ∈ (run_scrape env fails pages t db).2.2) :
    listHasSub (run_scrape env fails pages t db).2.2
      [Event.fetch i, Event.parse i, Event.progress i] = true := by
  cases hs : scrapePages env 1 pages with
  | error e =>
      have hnil : (run_scrape env fails pages t db).2.2 = [] := by
        cases e
        unfold run_scrape
        rw [hs]
      rw [hnil] at hmem
      exact absurd hmem (List.not_mem_nil _)
  | ok out =>
      obtain ⟨all, n, evs⟩ := out
      rw [run_scrape_trace_eq hs] at hmem ⊢
      exact scrapePages_progress_block env pages 1 all n evs hs i hmem

/-- Witness for the C9 ordering theorem on a concrete run. -/
theorem progress_callback_ordering_witness :
    listHasSub (run_scrape cexEnv noFail 1 0 emptyDB).2.2
      [Event.fetch 1, Event.parse 1, Event.progress 1] = true :=
  progress_callback_ordering cexEnv noFail 1 0 emptyDB 1 (by decide)

/-- C7: in a 5-page request where page 1 yields cards and page 2 yields
none, the run stops early: `pages_fetched = 1` and no page beyond 2 is
ever fetched. -/
theorem run_scrape_early_stop (env : Env) (t : Nat) (db : DB) (h1 h2 : String)
    (hf1 : env.fetchHtml 1 = Except.ok h1) (hp1 : env.parsePage h1 ≠ [])
    (hf2 : env.fetchHtml 2 = Except.ok h2) (hp2 : env.parsePage h2 = []) :
    okPagesFetched (run_scrape env noFail 5 t db).1 = Option.some 1 ∧
    (run_scrape env noFail 5 t db).2.2.all
      (fun e => match e with
        | Event.fetch p => decide (p ≤ 2)
        | _ => true) = true := by
  have e2 : scrapePages env 2 4 =
      Except.ok ([], 0, [Event.fetch 2, Event.parse 2, Event.progress 2]) := by
    show scrapePages env 2 (3 + 1) = _
    exact scrapePages_stop hf2 hp2
  have e1 : scrapePages env 1 5 =
      Except.ok (env.parsePage h1, 1,
        [Event.fetch 1, Event.parse 1, Event.progress 1, Event.sleep 1,
         Event.fetch 2, Event.parse 2, Event.progress 2]) := by
    show scrapePages env 1 (4 + 1) = _
    rw [scrapePages_go hf1 hp1]
    show (match scrapePages env 2 4 with
          | Except.error e => Except.error e
          | Except.ok (rest, n, evs') =>
              Except.ok (env.parsePage h1 ++ rest, n + 1,
                [Event.fetch 1, Event.parse 1, Event.progress 1] ++
                  [Event.sleep 1] ++ evs')) = _
    rw [e2]
    simp
  constructor
  · simp only [run_scrape, e1]
    rcases hsc : save_cars noFail t
        (normalize_and_dedupe (env.parsePage h1)) db with ⟨res, db'⟩
    rw [save_cars_noFail] at hsc
    obtain ⟨hres, hdb⟩ := Prod.mk.injEq .. ▸ hsc
    rw [← hres]
    rfl
  · rw [run_scrape_trace_eq e1]
    decide

/-- Witness for the C7 early-stop theorem on a concrete environment. -/
theorem run_scrape_early_stop_witness :
    okPagesFetched (run_scrape stopEnv noFail 5 0 emptyDB).1 = Option.some 1 ∧
    (run_scrape stopEnv noFail 5 0 emptyDB).2.2.all
      (fun e => match e with
        | Event.fetch p => decide (p ≤ 2)
        | _ => true) = true :=
  run_scrape_early_stop stopEnv 0 emptyDB "h1" "h2" rfl (by decide) rfl (by decide)

lemma scrapePages_error_of_fetch_error (env : Env) :
    ∀ (rem p k : Nat), p ≤ k → k < p + rem →
      (∀ j, p ≤ j → j < k →
        ∃ h, env.fetchHtml j = Except.ok h ∧ env.parsePage h ≠ []) →
      env.fetchHtml k = Except.error () →
      scrapePages env p rem = Except.error () := by
  intro rem
  induction rem with
  | zero => intro p k hpk hlt _ _; omega
  | succ rem ih =>
      intro p k hpk hlt hprev herr
      by_cases hpe : p = k
      · subst hpe
        exact scrapePages_fetch_error herr
      · have hplt : p < k := lt_of_le_of_ne hpk hpe
        obtain ⟨html, hfok, hpne⟩ := hprev p le_rfl hplt
        rw [scrapePages_go hfok hpne,
          ih (p + 1) k hplt (by omega)
            (fun j hj1 hj2 => hprev j (by omega) hj2) herr]

/-- C1 (amended): if `fetch_html` raises while `run_scrape` is fetching
page `k` (pages before `k` having returned cards), the run aborts with a
propagated exception and nothing at all is persisted: `save_cars` is never
reached, so neither page `k` nor the records already parsed from pages
`1..k-1` are stored — the in-memory batch is discarded with the exception. -/
theorem fetch_failure_aborts_and_discards (env : Env) (fails : Rec → Bool)
    (pages t k : Nat) (db : DB) (hk1 : 1 ≤ k) (hk2 : k ≤ pages)
    (hprev : ∀ j, 1 ≤ j → j < k →
      ∃ h, env.fetchHtml j = Except.ok h ∧ env.parsePage h ≠ [])
    (herr : env.fetchHtml k = Except.error ()) :
    run_scrape env fails pages t db = (Except.error (), db, []) := by
  have hs : scrapePages env 1 pages = Except.error () :=
    scrapePages_error_of_fetch_error env pages 1 k hk1 (by omega) hprev herr
  simp [run_scrape, hs]

/-- Witness for the amended C1 theorem: concrete two-page run failing on
page 2 returns the untouched store. -/
theorem fetch_failure_aborts_and_discards_witness :
    run_scrape cexEnv noFail 2 0 emptyDB = (Except.error (), emptyDB, []) :=
  fetch_failure_aborts_and_discards cexEnv noFail 2 0 2 emptyDB (by decide)
    (by decide)
    (fun j hj1 hj2 => ⟨"h1", by
      have : j = 1 := by omega
      subst this
      exact ⟨rfl, by decide⟩⟩)
    rfl

/-- C1 counterexample: with page 1 parsed into one record and page 2's
fetch raising, the whole run aborts and the resulting store still has no
`cars` rows at all — the records of page 1, although appended to the
in-memory batch, are *not* persisted, contrary to the claim. -/
theorem fetch_failure_counterexample :
    cexEnv.fetchHtml 1 = Except.ok "h1" ∧
    cexEnv.parsePage "h1" = [cexRec] ∧
    cexEnv.fetchHtml 2 = Except.error () ∧
    run_scrape cexEnv noFail 2 0 emptyDB = (Except.error (), emptyDB, []) ∧
    (run_scrape cexEnv noFail 2 0 emptyDB).2.1.cars = [] := by
  refine ⟨rfl, by decide, rfl, rfl, by decide⟩

lemma nad_all_hasKey (R : List Rec) :
    ∀ r ∈ normalize_and_dedupe R, hasKey r = true := by
  have hall := nadLoop_all_hasKey R []
  rw [List.all_eq_true] at hall
  exact fun r hr => hall r hr

lemma countP_hasKey_eq_length :
    ∀ (l : List Rec), (∀ r ∈ l, hasKey r = true) → l.countP hasKey = l.length
  | [], _ => by simp
  | r :: rs, h => by
      rw [List.countP_cons_of_pos _ _ (h r (List.mem_cons_self r rs)),
        countP_hasKey_eq_length rs (fun x hx => h x (List.mem_cons_of_mem r hx))]
      simp

lemma nad_countP_eq_length (R : List Rec) :
    (normalize_and_dedupe R).countP hasKey = (normalize_and_dedupe R).length :=
  countP_hasKey_eq_length _ (nad_all_hasKey R)

/-- C10 (implicit): every cleaned record carries an identity key, so
`save_cars` attempts and counts an upsert for each cleaned record and
returns exactly the cleaned list's length; hence every successful
`run_scrape` summary satisfies `upserted = cleaned_records`, and silent
loss shows up only between `raw_records` and `cleaned_records`. -/
theorem run_scrape_upserted_eq_cleaned (env : Env) (pages t : Nat) (db : DB)
    (s : Summary) (dbf : DB) (evs : List Event)
    (hrun : run_scrape env noFail pages t db = (Except.ok s, dbf, evs)) :
    s.upserted = s.cleaned_records ∧
    (∀ (R : List Rec), ∀ r ∈ normalize_and_dedupe R, hasKey r = true) ∧
    (∀ (R : List Rec) (u : Nat) (db' : DB),
      (save_cars noFail u (normalize_and_dedupe R) db').1 =
        Except.ok (normalize_and_dedupe R).length) := by
  refine ⟨?_, fun R => nad_all_hasKey R, fun R u db' => ?_⟩
  · cases hs : scrapePages env 1 pages with
    | error e =>
        cases e
        rw [run_scrape, hs] at hrun
        exact absurd (congrArg Prod.fst hrun) (by simp)
    | ok out =>
        obtain ⟨all, n, evs0⟩ := out
        simp only [run_scrape, hs, save_cars_noFail] at hrun
        have hfst := congrArg Prod.fst hrun
        simp only at hfst
        have hsum := Except.ok.inj hfst
        rw [← hsum]
        show (normalize_and_dedupe all).countP hasKey =
          (normalize_and_dedupe all).length
        exact nad_countP_eq_length all
  · rw [save_cars_noFail, nad_countP_eq_length R]

/-- Witness for the C10 theorem on a concrete successful run. -/
theorem run_scrape_upserted_eq_cleaned_witness :
    ∃ s : Summary, run_scrape stopEnv noFail 5 0 emptyDB =
        (Except.ok s, (run_scrape stopEnv noFail 5 0 emptyDB).2.1,
          (run_scrape stopEnv noFail 5 0 emptyDB).2.2) ∧
      s.upserted = s.cleaned_records := by
  refine ⟨{ pages_fetched := 1, raw_records := 1, cleaned_records := 1,
            upserted := 1 }, ?_, ?_⟩
  · rfl
  · exact (run_scrape_upserted_eq_cleaned stopEnv 5 0 emptyDB _ _ _ rfl).1

lemma saveLoop_error_of_fail (fails : Rec → Bool) (t : Nat) :
    ∀ (R : List Rec) (db : DB) (n : Nat),
      (∃ r ∈ R, hasKey r = true ∧ fails r = true) →
      saveLoop fails t R db n = Except.error () := by
  intro R
  induction R with
  | nil => intro db n h; obtain ⟨r, hr, _⟩ := h; exact absurd hr (List.not_mem_nil r)
  | cons r rs ih =>
      intro db n h
      cases hk : keyOf r with
      | none =>
          rw [saveLoop_cons_none hk]
          obtain ⟨x, hx, hxk, hxf⟩ := h
          rcases List.mem_cons.mp hx with rfl | hx'
          · rw [hasKey_false_of_none hk] at hxk
            exact absurd hxk (by simp)
          · exact ih db n ⟨x, hx', hxk, hxf⟩
      | some k =>
          by_cases hke : k = ""
          · subst hke
            rw [saveLoop_cons_empty hk]
            obtain ⟨x, hx, hxk, hxf⟩ := h
            rcases List.mem_cons.mp hx with rfl | hx'
            · rw [hasKey_false_of_empty hk] at hxk
              exact absurd hxk (by simp)
            · exact ih db n ⟨x, hx', hxk, hxf⟩
          · cases hf : fails r with
            | true => exact saveLoop_cons_fail hk hke hf
            | false =>
                rw [saveLoop_cons_step hk hke hf]
                obtain ⟨x, hx, hxk, hxf⟩ := h
                rcases List.mem_cons.mp hx with rfl | hx'
                · rw [hf] at hxf; exact absurd hxf (by simp)
                · exact ih (stepRec t db r) (n + 1) ⟨x, hx', hxk, hxf⟩

/-- C3: `save_cars` wraps the whole batch in one transaction: if any
record of the batch triggers a persistence constraint violation (the
`fails` oracle), the exception propagates to the caller and the entire
call rolls back — the caller's store, `cars` table included, is exactly
the one from before the call. -/
theorem save_cars_batch_rollback (fails : Rec → Bool) (t : Nat)
    (records : List Rec) (db : DB)
    (h : ∃ r ∈ records, hasKey r = true ∧ fails r = true) :
    (save_cars fails t records db).1 = Except.error () ∧
    (save_cars fails t records db).2 = db ∧
    (save_cars fails t records db).2.cars = db.cars := by
  have hloop := saveLoop_error_of_fail fails t records (seed_districts db) 0 h
  unfold save_cars saveCarsBody
  rw [hloop]
  exact ⟨rfl, rfl, rfl⟩

/-- Witness for the C3 rollback theorem: a two-record batch whose second
record violates a constraint leaves the store untouched and propagates the
error. -/
theorem save_cars_batch_rollback_witness :
    (save_cars (fun r => r.listing_id == Option.some "BAD") 7
        [cexRec, { cexRec with listing_id := Option.some "BAD" }] seededDB).1 =
      Except.error () ∧
    (save_cars (fun r => r.listing_id == Option.some "BAD") 7
        [cexRec, { cexRec with listing_id := Option.some "BAD" }] seededDB).2 =
      seededDB ∧
    (save_cars (fun r => r.listing_id == Option.some "BAD") 7
        [cexRec, { cexRec with listing_id := Option.some "BAD" }] seededDB).2.cars =
      seededDB.cars :=
  save_cars_batch_rollback _ 7 _ seededDB
    ⟨{ cexRec with listing_id := Option.some "BAD" },
      List.mem_cons_of_mem _ (List.mem_cons_self _ _), by decide, by decide⟩

/-- The `listing_id` column of the stored `cars` table, in row order. -/
def keysOf (cars : List Row) : List String :=
  cars.map Row.listing_id

/-- `SELECT * FROM cars WHERE listing_id = k LIMIT 1`. -/
def lookupCar (k : String) (cars : List Row) : Option Row :=
  cars.find? (fun row => row.listing_id = k)

/-- Region id resolved for a record against the reference tables of `db`. -/
def ridIn (db : DB) (r : Rec) : Option Nat :=
  resolve_region_id db r.city r.region

/-- The occurrences of key `k` in a record batch, in order. -/
def occsOf (k : String) (R : List Rec) : List Rec :=
  R.filter (fun r => keyOf r == Option.some k)

/-- The last record of the batch carrying key `k`, if any. -/
def lastKeyRec (k : String) (R : List Rec) : Option Rec :=
  (occsOf k R).getLast?

/-- The last non-null region id resolved along the occurrences of `k`. -/
def lastRid (db : DB) (k : String) (R : List Rec) : Option Nat :=
  ((occsOf k R).filterMap (fun r => ridIn db r)).getLast?

lemma resolve_tables_congr {db db' : DB} (hr : db.regions = db'.regions)
    (ha : db.region_aliases = db'.region_aliases) (city region : Option String) :
    resolve_region_id db city region = resolve_region_id db' city region := by
  obtain ⟨c1, R1, A1⟩ := db
  obtain ⟨c2, R2, A2⟩ := db'
  dsimp at hr ha
  subst hr
  subst ha
  rfl

lemma stepRec_regions (t : Nat) (db : DB) (r : Rec) :
    (stepRec t db r).regions = db.regions := by
  cases hk : keyOf r with
  | none => rw [stepRec_skip (hasKey_false_of_none hk)]
  | some lid =>
      by_cases hke : lid = ""
      · subst hke
        rw [stepRec_skip (hasKey_false_of_empty hk)]
      · rw [stepRec_keyed hk hke]
        cases resolve_region_id { db with cars := upsertCar t lid r db.cars }
          r.city r.region <;> rfl

lemma stepRec_aliases (t : Nat) (db : DB) (r : Rec) :
    (stepRec t db r).region_aliases = db.region_aliases := by
  cases hk : keyOf r with
  | none => rw [stepRec_skip (hasKey_false_of_none hk)]
  | some lid =>
      by_cases hke : lid = ""
      · subst hke
        rw [stepRec_skip (hasKey_false_of_empty hk)]
      · rw [stepRec_keyed hk hke]
        cases resolve_region_id { db with cars := upsertCar t lid r db.cars }
          r.city r.region <;> rfl

lemma runRecs_regions (t : Nat) :
    ∀ (R : List Rec) (db : DB), (runRecs t db R).regions = db.regions := by
  intro R
  induction R with
  | nil => intro db; rfl
  | cons r rs ih =>
      intro db
      show (runRecs t (stepRec t db r) rs).regions = db.regions
      rw [ih (stepRec t db r), stepRec_regions]

lemma runRecs_aliases (t : Nat) :
    ∀ (R : List Rec) (db : DB), (runRecs t db R).region_aliases = db.region_aliases := by
  intro R
  induction R with
  | nil => intro db; rfl
  | cons r rs ih =>
      intro db
      show (runRecs t (stepRec t db r) rs).region_aliases = db.region_aliases
      rw [ih (stepRec t db r), stepRec_aliases]

lemma ridIn_congr {db db' : DB} (hr : db.regions = db'.regions)
    (ha : db.region_aliases = db'.region_aliases) (r : Rec) :
    ridIn db r = ridIn db' r :=
  resolve_tables_congr hr ha r.city r.region

lemma any_key_iff (cars : List Row) (lid : String) :
    (cars.any (fun row => row.listing_id = lid) = true) ↔ lid ∈ keysOf cars := by
  simp [keysOf, List.any_eq_true, List.mem_map]

lemma keysOf_map_updRow (t : Nat) (lid : String) (rec : Rec) (cars : List Row) :
    keysOf (cars.map (updRow t lid rec)) = keysOf cars := by
  induction cars with
  | nil => rfl
  | cons c cs ih =>
      show (updRow t lid rec c).listing_id :: keysOf (cs.map (updRow t lid rec)) =
        c.listing_id :: keysOf cs
      rw [ih]
      unfold updRow
      by_cases h : c.listing_id = lid
      · rw [if_pos h, h]; rfl
      · rw [if_neg h]

lemma keysOf_upsert (t : Nat) (lid : String) (rec : Rec) (cars : List Row) :
    keysOf (upsertCar t lid rec cars) =
      if lid ∈ keysOf cars then keysOf cars else keysOf cars ++ [lid] := by
  by_cases h : lid ∈ keysOf cars
  · rw [if_pos h]
    unfold upsertCar
    rw [if_pos ((any_key_iff cars lid).mpr h)]
    exact keysOf_map_updRow t lid rec cars
  · rw [if_neg h]
    unfold upsertCar
    rw [if_neg (fun hc => h ((any_key_iff cars lid).mp hc))]
    unfold keysOf
    rw [List.map_append]
    rfl

lemma keysOf_setRegion (lid : String) (rid : Nat) (cars : List Row) :
    keysOf (setRegionId lid rid cars) = keysOf cars := by
  induction cars with
  | nil => rfl
  | cons c cs ih =>
      show (if c.listing_id = lid then { c with region_id := Option.some rid }
            else c).listing_id :: keysOf (setRegionId lid rid cs) =
        c.listing_id :: keysOf cs
      rw [ih]
      by_cases h : c.listing_id = lid
      · rw [if_pos h]
      · rw [if_neg h]

lemma keysOf_step_keyed {t : Nat} {db : DB} {r : Rec} {lid : String}
    (hk : keyOf r = Option.some lid) (hke : lid ≠ "") :
    keysOf (stepRec t db r).cars =
      if lid ∈ keysOf db.cars then keysOf db.cars
      else keysOf db.cars ++ [lid] := by
  rw [stepRec_keyed hk hke]
  cases resolve_region_id { db with cars := upsertCar t lid r db.cars }
    r.city r.region with
  | none =>
      show keysOf (upsertCar t lid r db.cars) = _
      rw [keysOf_upsert]
  | some rid =>
      show keysOf (setRegionId lid rid (upsertCar t lid r db.cars)) = _
      rw [keysOf_setRegion, keysOf_upsert]

lemma keysOf_step_of_mem {t : Nat} {db : DB} {r : Rec}
    (h : ∀ lid, keyOf r = Option.some lid → lid ≠ "" → lid ∈ keysOf db.cars) :
    keysOf (stepRec t db r).cars = keysOf db.cars := by
  cases hk : keyOf r with
  | none => rw [stepRec_skip (hasKey_false_of_none hk)]
  | some lid =>
      by_cases hke : lid = ""
      · subst hke
        rw [stepRec_skip (hasKey_false_of_empty hk)]
      · rw [keysOf_step_keyed hk hke, if_pos (h lid hk hke)]

lemma mem_keysOf_step {t : Nat} {db : DB} {r : Rec} {k : String}
    (h : k ∈ keysOf db.cars) : k ∈ keysOf (stepRec t db r).cars := by
  cases hk : keyOf r with
  | none => rw [stepRec_skip (hasKey_false_of_none hk)]; exact h
  | some lid =>
      by_cases hke : lid = ""
      · subst hke
        rw [stepRec_skip (hasKey_false_of_empty hk)]; exact h
      · rw [keysOf_step_keyed hk hke]
        by_cases hmem : lid ∈ keysOf db.cars
        · rw [if_pos hmem]; exact h
        · rw [if_neg hmem]; exact List.mem_append_left _ h

lemma key_mem_after_step {t : Nat} {db : DB} {r : Rec} {lid : String}
    (hk : keyOf r = Option.some lid) (hke : lid ≠ "") :
    lid ∈ keysOf (stepRec t db r).cars := by
  rw [keysOf_step_keyed hk hke]
  by_cases hmem : lid ∈ keysOf db.cars
  · rw [if_pos hmem]; exact hmem
  · rw [if_neg hmem]; exact List.mem_append_right _ (List.mem_singleton.mpr rfl)

lemma keysOf_runRecs_of_mem (t : Nat) :
    ∀ (R : List Rec) (db : DB),
      (∀ r ∈ R, ∀ lid, keyOf r = Option.some lid → lid ≠ "" →
        lid ∈ keysOf db.cars) →
      keysOf (runRecs t db R).cars = keysOf db.cars := by
  intro R
  induction R with
  | nil => intro db _; rfl
  | cons r rs ih =>
      intro db h
      show keysOf (runRecs t (stepRec t db r) rs).cars = keysOf db.cars
      have hstep : keysOf (stepRec t db r).cars = keysOf db.cars :=
        keysOf_step_of_mem (h r (List.mem_cons_self r rs))
      rw [ih (stepRec t db r) (fun x hx lid hk hke => by
        rw [hstep]
        exact h x (List.mem_cons_of_mem r hx) lid hk hke), hstep]

lemma mem_keysOf_runRecs_of_mem (t : Nat) :
    ∀ (R : List Rec) (db : DB) (k : String),
      k ∈ keysOf db.cars → k ∈ keysOf (runRecs t db R).cars := by
  intro R
  induction R with
  | nil => intro db k h; exact h
  | cons r rs ih =>
      intro db k h
      exact ih (stepRec t db r) k (mem_keysOf_step h)

lemma key_mem_runRecs (t : Nat) :
    ∀ (R : List Rec) (db : DB) (r : Rec) (lid : String), r ∈ R →
      keyOf r = Option.some lid → lid ≠ "" →
      lid ∈ keysOf (runRecs t db R).cars := by
  intro R
  induction R with
  | nil => intro db r lid hr _ _; exact absurd hr (List.not_mem_nil r)
  | cons x xs ih =>
      intro db r lid hr hk hke
      rcases List.mem_cons.mp hr with rfl | hr'
      · exact mem_keysOf_runRecs_of_mem t xs (stepRec t db r) lid
          (key_mem_after_step hk hke)
      · exact ih (stepRec t db x) r lid hr' hk hke

lemma nodup_keys_step {t : Nat} {db : DB} {r : Rec}
    (h : (keysOf db.cars).Nodup) : (keysOf (stepRec t db r).cars).Nodup := by
  cases hk : keyOf r with
  | none => rw [stepRec_skip (hasKey_false_of_none hk)]; exact h
  | some lid =>
      by_cases hke : lid = ""
      · subst hke
        rw [stepRec_skip (hasKey_false_of_empty hk)]; exact h
      · rw [keysOf_step_keyed hk hke]
        by_cases hmem : lid ∈ keysOf db.cars
        · rw [if_pos hmem]; exact h
        · rw [if_neg hmem]
          rw [List.nodup_append]
          exact ⟨h, List.nodup_singleton lid,
            by simpa [List.disjoint_singleton] using hmem⟩

lemma nodup_keys_runRecs (t : Nat) :
    ∀ (R : List Rec) (db : DB),
      (keysOf db.cars).Nodup → (keysOf (runRecs t db R).cars).Nodup := by
  intro R
  induction R with
  | nil => intro db h; exact h
  | cons r rs ih => intro db h; exact ih (stepRec t db r) (nodup_keys_step h)

lemma lookupCar_map_updRow (t : Nat) (lid : String) (rec : Rec) (cars : List Row) :
    lookupCar lid (cars.map (updRow t lid rec)) =
      (lookupCar lid cars).map (fun row => rowFor lid rec t row.region_id) := by
  induction cars with
  | nil => rfl
  | cons c cs ih =>
      by_cases h : c.listing_id = lid
      · unfold lookupCar
        rw [List.map_cons,
          List.find?_cons_of_pos _ (by simp [updRow, if_pos h, rowFor]),
          List.find?_cons_of_pos _ (by simp [h])]
        simp [updRow, h]
      · unfold lookupCar
        rw [List.map_cons,
          List.find?_cons_of_neg _ (by simp [updRow, if_neg h, h]),
          List.find?_cons_of_neg _ (by simp [h])]
        exact ih

lemma lookupCar_isSome_iff (k : String) (cars : List Row) :
    (lookupCar k cars).isSome = true ↔ k ∈ keysOf cars := by
  unfold lookupCar
  rw [List.find?_isSome]
  simp [keysOf, List.mem_map]

lemma lookupCar_upsert_self (t : Nat) (lid : String) (rec : Rec) (cars : List Row) :
    lookupCar lid (upsertCar t lid rec cars) =
      Option.some (rowFor lid rec t ((lookupCar lid cars).bind Row.region_id)) := by
  unfold upsertCar
  by_cases h : cars.any (fun row => row.listing_id = lid) = true
  · rw [if_pos h, lookupCar_map_updRow]
    have hmem : lid ∈ keysOf cars := (any_key_iff cars lid).mp h
    obtain ⟨row, hrow⟩ := Option.isSome_iff_exists.mp
      ((lookupCar_isSome_iff lid cars).mpr hmem)
    rw [hrow]
    rfl
  · rw [if_neg h]
    have hnone : lookupCar lid cars = Option.none := by
      by_contra hne
      obtain ⟨row, hrow⟩ := Option.ne_none_iff_exists'.mp hne
      exact h ((any_key_iff cars lid).mpr
        ((lookupCar_isSome_iff lid cars).mp (by rw [hrow]; rfl)))
    unfold lookupCar at hnone ⊢
    rw [List.find?_append, hnone]
    simp [rowFor]

lemma lookupCar_map_updRow_other (t : Nat) (lid k : String) (rec : Rec)
    (cars : List Row) (hne : k ≠ lid) :
    lookupCar k (cars.map (updRow t lid rec)) = lookupCar k cars := by
  induction cars with
  | nil => rfl
  | cons c cs ih =>
      by_cases hc : c.listing_id = k
      · have hcl : c.listing_id ≠ lid := by rw [hc]; exact hne
        unfold lookupCar
        rw [List.map_cons,
          List.find?_cons_of_pos _ (by simp [updRow, hc, hne]),
          List.find?_cons_of_pos _ (by simp [hc])]
        rw [show updRow t lid rec c = c from by unfold updRow; rw [if_neg hcl]]
      · unfold lookupCar
        rw [List.map_cons,
          List.find?_cons_of_neg _ (by
            unfold updRow
            by_cases hcl : c.listing_id = lid
            · simp [if_pos hcl, rowFor, Ne.symm hne]
            · simp [if_neg hcl, hc]),
          List.find?_cons_of_neg _ (by simp [hc])]
        exact ih

lemma lookupCar_upsert_other (t : Nat) (lid k : String) (rec : Rec)
    (cars : List Row) (hne : k ≠ lid) :
    lookupCar k (upsertCar t lid rec cars) = lookupCar k cars := by
  unfold upsertCar
  by_cases h : cars.any (fun row => row.listing_id = lid) = true
  · rw [if_pos h]
    exact lookupCar_map_updRow_other t lid k rec cars hne
  · rw [if_neg h]
    unfold lookupCar
    rw [List.find?_append]
    have hnil : List.find? (fun row => decide (row.listing_id = k))
        [rowFor lid rec t Option.none] = Option.none := by
      simp [rowFor, Ne.symm hne]
    rw [hnil]
    simp

lemma lookupCar_setRegion_self (lid : String) (rid : Nat) (cars : List Row) :
    lookupCar lid (setRegionId lid rid cars) =
      (lookupCar lid cars).map (fun row => { row with region_id := Option.some rid }) := by
  induction cars with
  | nil => rfl
  | cons c cs ih =>
      by_cases hc : c.listing_id = lid
      · unfold setRegionId lookupCar
        rw [List.map_cons,
          List.find?_cons_of_pos _ (by simp [if_pos hc, hc]),
          List.find?_cons_of_pos _ (by simp [hc])]
        simp [if_pos hc]
      · unfold setRegionId lookupCar
        rw [List.map_cons,
          List.find?_cons_of_neg _ (by simp [if_neg hc, hc]),
          List.find?_cons_of_neg _ (by simp [hc])]
        exact ih

lemma lookupCar_setRegion_other (lid k : String) (rid : Nat) (cars : List Row)
    (hne : k ≠ lid) :
    lookupCar k (setRegionId lid rid cars) = lookupCar k cars := by
  induction cars with
  | nil => rfl
  | cons c cs ih =>
      by_cases hc : c.listing_id = k
      · have hcl : c.listing_id ≠ lid := by rw [hc]; exact hne
        unfold setRegionId lookupCar
        rw [List.map_cons,
          List.find?_cons_of_pos _ (by simp [hc, hne]),
          List.find?_cons_of_pos _ (by simp [hc])]
        rw [if_neg hcl]
      · unfold setRegionId lookupCar
        rw [List.map_cons,
          List.find?_cons_of_neg _ (by
            by_cases hcl : c.listing_id = lid
            · simp [if_pos hcl, hc]
            · simp [if_neg hcl, hc]),
          List.find?_cons_of_neg _ (by simp [hc])]
        exact ih

lemma lookupCar_step_self {t : Nat} {db : DB} {r : Rec} {lid : String}
    (hk : keyOf r = Option.some lid) (hke : lid ≠ "") :
    lookupCar lid (stepRec t db r).cars =
      Option.some (rowFor lid r t
        (match ridIn db r with
         | Option.some v => Option.some v
         | Option.none => (lookupCar lid db.cars).bind Row.region_id)) := by
  rw [stepRec_keyed hk hke]
  have hrid : resolve_region_id { db with cars := upsertCar t lid r db.cars }
      r.city r.region = ridIn db r :=
    resolve_tables_congr rfl rfl r.city r.region
  rw [hrid]
  cases hr : ridIn db r with
  | none =>
      show lookupCar lid (upsertCar t lid r db.cars) = _
      rw [lookupCar_upsert_self]
  | some v =>
      show lookupCar lid (setRegionId lid v (upsertCar t lid r db.cars)) = _
      rw [lookupCar_setRegion_self, lookupCar_upsert_self]
      rfl

lemma lookupCar_step_other {t : Nat} {db : DB} {r : Rec} {k : String}
    (h : ∀ lid, keyOf r = Option.some lid → lid ≠ "" → k ≠ lid) :
    lookupCar k (stepRec t db r).cars = lookupCar k db.cars := by
  cases hk : keyOf r with
  | none => rw [stepRec_skip (hasKey_false_of_none hk)]
  | some lid =>
      by_cases hke : lid = ""
      · subst hke
        rw [stepRec_skip (hasKey_false_of_empty hk)]
      · rw [stepRec_keyed hk hke]
        have hne : k ≠ lid := h lid hk hke
        cases resolve_region_id { db with cars := upsertCar t lid r db.cars }
          r.city r.region with
        | none =>
            show lookupCar k (upsertCar t lid r db.cars) = _
            rw [lookupCar_upsert_other t lid k r db.cars hne]
        | some v =>
            show lookupCar k (setRegionId lid v (upsertCar t lid r db.cars)) = _
            rw [lookupCar_setRegion_other lid k v _ hne,
              lookupCar_upsert_other t lid k r db.cars hne]

lemma runRecs_append_singleton (t : Nat) (db : DB) (R : List Rec) (r : Rec) :
    runRecs t db (R ++ [r]) = stepRec t (runRecs t db R) r := by
  simp [runRecs, List.foldl_append]

lemma occsOf_append_occ {k : String} {r : Rec} (R : List Rec)
    (h : keyOf r = Option.some k) :
    occsOf k (R ++ [r]) = occsOf k R ++ [r] := by
  unfold occsOf
  rw [List.filter_append]
  simp [h]

lemma occsOf_append_other {k : String} {r : Rec} (R : List Rec)
    (h : ¬ keyOf r = Option.some k) :
    occsOf k (R ++ [r]) = occsOf k R := by
  unfold occsOf
  rw [List.filter_append]
  simp [h]

lemma lastRid_of_no_occ {db : DB} {k : String} {R : List Rec}
    (h : lastKeyRec k R = Option.none) : lastRid db k R = Option.none := by
  unfold lastKeyRec at h
  unfold lastRid
  rw [List.getLast?_eq_none_iff] at h
  rw [h]
  rfl

lemma lookup_runRecs (t : Nat) (db : DB) (k : String) (hke : k ≠ "") (R : List Rec) :
    lookupCar k (runRecs t db R).cars =
      (match lastKeyRec k R with
       | Option.none => lookupCar k db.cars
       | Option.some r =>
           Option.some (rowFor k r t
             (match lastRid db k R with
              | Option.some v => Option.some v
              | Option.none => (lookupCar k db.cars).bind Row.region_id))) := by
  induction R using List.reverseRecOn with
  | nil => rfl
  | append_singleton R r ih =>
      rw [runRecs_append_singleton]
      by_cases hocc : keyOf r = Option.some k
      · have hlast : lastKeyRec k (R ++ [r]) = Option.some r := by
          unfold lastKeyRec
          rw [occsOf_append_occ R hocc, List.getLast?_concat]
        have hridstep : ridIn (runRecs t db R) r = ridIn db r :=
          ridIn_congr (runRecs_regions t R db) (runRecs_aliases t R db) r
        rw [lookupCar_step_self hocc hke, hlast, hridstep]
        have hoccs : (occsOf k (R ++ [r])).filterMap (fun x => ridIn db x) =
            (occsOf k R).filterMap (fun x => ridIn db x) ++
              (match ridIn db r with
               | Option.some v => [v]
               | Option.none => []) := by
          rw [occsOf_append_occ R hocc, List.filterMap_append]
          cases hr2 : ridIn db r <;> simp [List.filterMap_cons, hr2]
        cases hr : ridIn db r with
        | some v =>
            have hlr : lastRid db k (R ++ [r]) = Option.some v := by
              unfold lastRid
              rw [hoccs, hr, List.getLast?_concat]
            rw [hlr]
        | none =>
            have hlr : lastRid db k (R ++ [r]) = lastRid db k R := by
              unfold lastRid
              rw [hoccs, hr, List.append_nil]
            rw [hlr, ih]
            cases hlk : lastKeyRec k R with
            | none =>
                rw [lastRid_of_no_occ hlk]
            | some r' =>
                cases hlr' : lastRid db k R with
                | some v => rfl
                | none => rfl
      · have hstep : lookupCar k (stepRec t (runRecs t db R) r).cars =
            lookupCar k (runRecs t db R).cars := by
          refine lookupCar_step_other (fun lid hk hkne hcon => ?_)
          subst hcon
          exact hocc hk
        have hlast : lastKeyRec k (R ++ [r]) = lastKeyRec k R := by
          unfold lastKeyRec
          rw [occsOf_append_other R hocc]
        have hlr : lastRid db k (R ++ [r]) = lastRid db k R := by
          unfold lastRid
          rw [occsOf_append_other R hocc]
        rw [hstep, hlast, hlr, ih]

lemma insertDistrict_of_present {rs : List Region} {nm : String}
    (h : rs.any (fun r => r.level = "district" ∧ r.name = nm) = true) :
    insertDistrict rs nm = rs := by
  unfold insertDistrict
  rw [if_pos h]

lemma present_insertDistrict {rs : List Region} {nm nm' : String}
    (h : rs.any (fun r => r.level = "district" ∧ r.name = nm) = true) :
    (insertDistrict rs nm').any (fun r => r.level = "district" ∧ r.name = nm) = true := by
  unfold insertDistrict
  by_cases hp : rs.any (fun r => r.level = "district" ∧ r.name = nm') = true
  · rw [if_pos hp]; exact h
  · rw [if_neg hp, List.any_append, h]; rfl

lemma present_after_insertDistrict (rs : List Region) (nm : String) :
    (insertDistrict rs nm).any (fun r => r.level = "district" ∧ r.name = nm) = true := by
  unfold insertDistrict
  by_cases hp : rs.any (fun r => r.level = "district" ∧ r.name = nm) = true
  · rw [if_pos hp]; exact hp
  · rw [if_neg hp, List.any_append]
    simp

lemma present_foldl_insertDistrict {rs : List Region} {nm : String}
    (names : List String)
    (h : rs.any (fun r => r.level = "district" ∧ r.name = nm) = true) :
    (names.foldl insertDistrict rs).any
      (fun r => r.level = "district" ∧ r.name = nm) = true := by
  induction names generalizing rs with
  | nil => exact h
  | cons n ns ih => exact ih (present_insertDistrict h)

lemma present_of_mem_foldl_insertDistrict (names : List String) :
    ∀ (rs : List Region) (nm : String), nm ∈ names →
      (names.foldl insertDistrict rs).any
        (fun r => r.level = "district" ∧ r.name = nm) = true := by
  induction names with
  | nil => intro rs nm h; exact absurd h (List.not_mem_nil nm)
  | cons n ns ih =>
      intro rs nm h
      rcases List.mem_cons.mp h with rfl | h'
      · exact present_foldl_insertDistrict ns (present_after_insertDistrict rs nm)
      · exact ih (insertDistrict rs n) nm h'

lemma foldl_insertDistrict_of_all_present (names : List String) :
    ∀ (rs : List Region),
      (∀ nm ∈ names, rs.any (fun r => r.level = "district" ∧ r.name = nm) = true) →
      names.foldl insertDistrict rs = rs := by
  induction names with
  | nil => intro rs _; rfl
  | cons n ns ih =>
      intro rs h
      show ns.foldl insertDistrict (insertDistrict rs n) = rs
      rw [insertDistrict_of_present (h n (List.mem_cons_self n ns))]
      exact ih rs (fun nm hnm => h nm (List.mem_cons_of_mem n hnm))

lemma seedRegions_idem (rs : List Region) :
    seedDistrictNames.foldl insertDistrict
        (seedDistrictNames.foldl insertDistrict rs) =
      seedDistrictNames.foldl insertDistrict rs :=
  foldl_insertDistrict_of_all_present seedDistrictNames _
    (fun nm hnm => present_of_mem_foldl_insertDistrict seedDistrictNames rs nm hnm)

lemma insertAlias_of_present {as' : List RegionAlias} {rid : Nat} {al : String}
    (h : as'.any (fun a => a.region_id = rid ∧ a.aliasName = al) = true) :
    insertAlias as' rid al = as' := by
  unfold insertAlias
  rw [if_pos h]

lemma aliasPresent_insertAlias {as' : List RegionAlias} {rid rid' : Nat}
    {al al' : String}
    (h : as'.any (fun a => a.region_id = rid ∧ a.aliasName = al) = true) :
    (insertAlias as' rid' al').any
      (fun a => a.region_id = rid ∧ a.aliasName = al) = true := by
  unfold insertAlias
  by_cases hp : as'.any (fun a => a.region_id = rid' ∧ a.aliasName = al') = true
  · rw [if_pos hp]; exact h
  · rw [if_neg hp, List.any_append, h]; rfl

lemma aliasPresent_after_insertAlias (as' : List RegionAlias) (rid : Nat) (al : String) :
    (insertAlias as' rid al).any
      (fun a => a.region_id = rid ∧ a.aliasName = al) = true := by
  unfold insertAlias
  by_cases hp : as'.any (fun a => a.region_id = rid ∧ a.aliasName = al) = true
  · rw [if_pos hp]; exact hp
  · rw [if_neg hp, List.any_append]
    simp

lemma foldl_insertAlias_pres {rid : Nat} {al al' : String} (l : List Region) :
    ∀ (as' : List RegionAlias),
      as'.any (fun a => a.region_id = rid ∧ a.aliasName = al) = true →
      (l.foldl (fun acc r => insertAlias acc r.id al') as').any
        (fun a => a.region_id = rid ∧ a.aliasName = al) = true := by
  induction l with
  | nil => intro as' h; exact h
  | cons x xs ih =>
      intro as' h
      exact ih (insertAlias as' x.id al') (aliasPresent_insertAlias h)

lemma aliasPresent_insertAliasFor {as' : List RegionAlias} {rid : Nat} {al : String}
    (rs : List Region) (al' nm' : String)
    (h : as'.any (fun a => a.region_id = rid ∧ a.aliasName = al) = true) :
    (insertAliasFor rs as' al' nm').any
      (fun a => a.region_id = rid ∧ a.aliasName = al) = true :=
  foldl_insertAlias_pres _ as' h

lemma foldl_insertAlias_of_all_present {al : String} (l : List Region) :
    ∀ (as' : List RegionAlias),
      (∀ r ∈ l, as'.any (fun a => a.region_id = r.id ∧ a.aliasName = al) = true) →
      l.foldl (fun acc r => insertAlias acc r.id al) as' = as' := by
  induction l with
  | nil => intro as' _; rfl
  | cons x xs ih =>
      intro as' h
      show xs.foldl (fun acc r => insertAlias acc r.id al)
        (insertAlias as' x.id al) = as'
      rw [insertAlias_of_present (h x (List.mem_cons_self x xs))]
      exact ih as' (fun r hr => h r (List.mem_cons_of_mem x hr))

lemma insertAliasFor_of_all_present {as' : List RegionAlias} (rs : List Region)
    (al nm : String)
    (h : ∀ r ∈ rs.filter (fun r => r.level = "district" ∧ r.name = nm),
      as'.any (fun a => a.region_id = r.id ∧ a.aliasName = al) = true) :
    insertAliasFor rs as' al nm = as' :=
  foldl_insertAlias_of_all_present _ as' h

lemma aliasPresent_after_insertAliasFor (rs : List Region)
    (as' : List RegionAlias) (al nm : String) :
    ∀ r ∈ rs.filter (fun r => r.level = "district" ∧ r.name = nm),
      (insertAliasFor rs as' al nm).any
        (fun a => a.region_id = r.id ∧ a.aliasName = al) = true := by
  unfold insertAliasFor
  generalize rs.filter (fun r => r.level = "district" ∧ r.name = nm) = l
  induction l generalizing as' with
  | nil => intro r hr; exact absurd hr (List.not_mem_nil r)
  | cons x xs ih =>
      intro r hr
      rcases List.mem_cons.mp hr with rfl | hr'
      · exact foldl_insertAlias_pres xs (insertAlias as' r.id al)
          (aliasPresent_after_insertAlias as' r.id al)
      · exact ih (insertAlias as' x.id al) r hr'

lemma foldl_aliasFor_pres {rid : Nat} {al : String}
    (pairs : List (String × String)) (rs : List Region) :
    ∀ (as0 : List RegionAlias),
      as0.any (fun a => a.region_id = rid ∧ a.aliasName = al) = true →
      (pairs.foldl (fun acc q => insertAliasFor rs acc q.1 q.2) as0).any
        (fun a => a.region_id = rid ∧ a.aliasName = al) = true := by
  induction pairs with
  | nil => intro as0 h; exact h
  | cons q qs ih =>
      intro as0 h
      exact ih _ (aliasPresent_insertAliasFor rs q.1 q.2 h)

lemma foldl_aliasFor_establishes (pairs : List (String × String)) (rs : List Region) :
    ∀ (as0 : List RegionAlias) (p : String × String), p ∈ pairs →
      ∀ r ∈ rs.filter (fun r => r.level = "district" ∧ r.name = p.2),
        (pairs.foldl (fun acc q => insertAliasFor rs acc q.1 q.2) as0).any
          (fun a => a.region_id = r.id ∧ a.aliasName = p.1) = true := by
  induction pairs with
  | nil => intro as0 p hp; exact absurd hp (List.not_mem_nil p)
  | cons q qs ih =>
      intro as0 p hp r hr
      rcases List.mem_cons.mp hp with rfl | hp'
      · exact foldl_aliasFor_pres qs rs _
          (aliasPresent_after_insertAliasFor rs as0 p.1 p.2 r hr)
      · exact ih (insertAliasFor rs as0 q.1 q.2) p hp' r hr

lemma foldl_aliasFor_of_all_present (pairs : List (String × String))
    (rs : List Region) (as0 : List RegionAlias)
    (h : ∀ p ∈ pairs, ∀ r ∈ rs.filter (fun r => r.level = "district" ∧ r.name = p.2),
      as0.any (fun a => a.region_id = r.id ∧ a.aliasName = p.1) = true) :
    pairs.foldl (fun acc q => insertAliasFor rs acc q.1 q.2) as0 = as0 := by
  induction pairs with
  | nil => rfl
  | cons q qs ih =>
      show qs.foldl (fun acc q => insertAliasFor rs acc q.1 q.2)
        (insertAliasFor rs as0 q.1 q.2) = as0
      rw [insertAliasFor_of_all_present rs q.1 q.2
        (fun r hr => h q (List.mem_cons_self q qs) r hr)]
      exact ih (fun p hp r hr => h p (List.mem_cons_of_mem q hp) r hr)

lemma seed_districts_cars (db : DB) : (seed_districts db).cars = db.cars := by
  simp only [seed_districts]

lemma seed_districts_regions (db : DB) :
    (seed_districts db).regions =
      seedDistrictNames.foldl insertDistrict db.regions := by
  simp only [seed_districts]

lemma seed_districts_aliases (db : DB) :
    (seed_districts db).region_aliases =
      seedAliasPairs.foldl
        (fun acc p => insertAliasFor
          (seedDistrictNames.foldl insertDistrict db.regions) acc p.1 p.2)
        db.region_aliases := by
  simp only [seed_districts]

lemma dbExt {a b : DB} (h1 : a.cars = b.cars) (h2 : a.regions = b.regions)
    (h3 : a.region_aliases = b.region_aliases) : a = b := by
  obtain ⟨c1, r1, al1⟩ := a
  obtain ⟨c2, r2, al2⟩ := b
  dsimp at h1 h2 h3
  rw [h1, h2, h3]

lemma seed_districts_stable {db db' : DB}
    (hr : db'.regions = (seed_districts db).regions)
    (ha : db'.region_aliases = (seed_districts db).region_aliases) :
    seed_districts db' = db' := by
  rw [seed_districts_regions] at hr
  rw [seed_districts_aliases] at ha
  have e1 : seedDistrictNames.foldl insertDistrict db'.regions = db'.regions := by
    rw [hr]
    exact foldl_insertDistrict_of_all_present seedDistrictNames _
      (fun nm hnm => present_of_mem_foldl_insertDistrict seedDistrictNames db.regions nm hnm)
  have e2 : seedAliasPairs.foldl
      (fun acc p => insertAliasFor
        (seedDistrictNames.foldl insertDistrict db'.regions) acc p.1 p.2)
      db'.region_aliases = db'.region_aliases := by
    rw [e1, hr, ha]
    exact foldl_aliasFor_of_all_present seedAliasPairs _ _
      (fun p hp r hr2 =>
        foldl_aliasFor_establishes seedAliasPairs _ db.region_aliases p hp r hr2)
  have hc := seed_districts_cars db'
  have hr2 := seed_districts_regions db'
  have ha2 := seed_districts_aliases db'
  rw [e1] at hr2
  rw [e2] at ha2
  exact dbExt hc hr2 ha2

lemma lookupCar_get (cars : List Row) :
    ∀ (hnd : (keysOf cars).Nodup) (i : Nat) (hi : i < cars.length),
      lookupCar (cars.get ⟨i, hi⟩).listing_id cars =
        Option.some (cars.get ⟨i, hi⟩) := by
  induction cars with
  | nil => intro _ i hi; exact absurd hi (by simp)
  | cons c cs ih =>
      intro hnd i hi
      have hnd' : (keysOf (c :: cs)).Nodup = (c.listing_id :: keysOf cs).Nodup := rfl
      rw [hnd'] at hnd
      obtain ⟨hnotin, hndtail⟩ := List.nodup_cons.mp hnd
      cases i with
      | zero =>
          show lookupCar c.listing_id (c :: cs) = Option.some c
          unfold lookupCar
          rw [List.find?_cons_of_pos _ (by simp)]
      | succ j =>
          have hj : j < cs.length := Nat.lt_of_succ_lt_succ hi
          show lookupCar ((cs.get ⟨j, hj⟩).listing_id) (c :: cs) =
            Option.some (cs.get ⟨j, hj⟩)
          have hmem : (cs.get ⟨j, hj⟩).listing_id ∈ keysOf cs := by
            unfold keysOf
            exact List.mem_map_of_mem Row.listing_id (cs.get_mem j hj)
          have hne : c.listing_id ≠ (cs.get ⟨j, hj⟩).listing_id := by
            intro hcon
            rw [hcon] at hnotin
            exact hnotin hmem
          unfold lookupCar
          rw [List.find?_cons_of_neg _ (by simp only [decide_eq_true_eq]; exact hne)]
          exact ih hndtail j hj

lemma lastRid_congr {db db' : DB} (hr : db.regions = db'.regions)
    (ha : db.region_aliases = db'.region_aliases) (k : String) (R : List Rec) :
    lastRid db k R = lastRid db' k R := by
  unfold lastRid
  have : ∀ x, ridIn db x = ridIn db' x := fun x => ridIn_congr hr ha x
  rw [List.filterMap_congr (fun x _ => this x)]

lemma lookup_runRecs_unkeyed (t : Nat) :
    ∀ (R : List Rec) (db : DB), (∀ r ∈ R, hasKey r = true) →
      lookupCar "" (runRecs t db R).cars = lookupCar "" db.cars := by
  intro R
  induction R with
  | nil => intro db _; rfl
  | cons r rs ih =>
      intro db hall
      show lookupCar "" (runRecs t (stepRec t db r) rs).cars = _
      rw [ih (stepRec t db r) (fun x hx => hall x (List.mem_cons_of_mem r hx)),
        lookupCar_step_other (fun lid hk hke hcon => hke hcon.symm)]

lemma not_empty_key_mem_map {R : List Rec} (hkeys : ∀ r ∈ R, hasKey r = true) :
    Option.some "" ∉ R.map keyOf := by
  intro hmem
  obtain ⟨r, hr, hkr⟩ := List.mem_map.mp hmem
  have := hkeys r hr
  rw [hasKey, hkr] at this
  simp [strTruthy] at this

lemma mem_of_getLast?_eq {α : Type} {l : List α} {a : α}
    (h : l.getLast? = Option.some a) : a ∈ l := by
  induction l with
  | nil => exact absurd h (by simp)
  | cons x xs ih =>
      cases xs with
      | nil =>
          simp only [List.getLast?_singleton, Option.some.injEq] at h
          simp [h]
      | cons y ys =>
          rw [List.getLast?_cons_cons] at h
          exact List.mem_cons_of_mem x (ih h)

lemma lastKeyRec_mem {k : String} {R : List Rec} {r : Rec}
    (h : lastKeyRec k R = Option.some r) : r ∈ R ∧ keyOf r = Option.some k := by
  unfold lastKeyRec at h
  have hmem : r ∈ occsOf k R := mem_of_getLast?_eq h
  unfold occsOf at hmem
  obtain ⟨hin, hpred⟩ := List.mem_filter.mp hmem
  refine ⟨hin, ?_⟩
  simpa using hpred

lemma lastKeyRec_some_of_mem {k : String} {R : List Rec} {r : Rec}
    (hr : r ∈ R) (hk : keyOf r = Option.some k) :
    lastKeyRec k R ≠ Option.none := by
  unfold lastKeyRec
  rw [Ne, List.getLast?_eq_none_iff]
  intro hcon
  have : r ∈ occsOf k R := by
    unfold occsOf
    exact List.mem_filter.mpr ⟨hr, by simp [hk]⟩
  rw [hcon] at this
  exact absurd this (List.not_mem_nil r)

/-- Equality of two `cars` rows on every column except `scraped_at`. -/
def rowEqX (a b : Row) : Prop :=
  a.listing_id = b.listing_id ∧ a.title = b.title ∧ a.url = b.url ∧
  a.city = b.city ∧ a.region = b.region ∧ a.seller_type = b.seller_type ∧
  a.price = b.price ∧ a.currency = b.currency ∧ a.brand = b.brand ∧
  a.fuel = b.fuel ∧ a.model_year = b.model_year ∧
  a.mileage_km = b.mileage_km ∧ a.region_id = b.region_id

lemma rowEqX_of_eq {a b : Row} (h : a = b) : rowEqX a b := by
  subst h
  exact ⟨rfl, rfl, rfl, rfl, rfl, rfl, rfl, rfl, rfl, rfl, rfl, rfl, rfl⟩

lemma rowEqX_rowFor (k : String) (r : Rec) (t2 t1 : Nat) (rid : Option Nat) :
    rowEqX (rowFor k r t2 rid) (rowFor k r t1 rid) :=
  ⟨rfl, rfl, rfl, rfl, rfl, rfl, rfl, rfl, rfl, rfl, rfl, rfl, rfl⟩

/-- C2: running `save_cars` (upsert) twice with the identical record list
`R` (every record carrying an identity key) leaves the stored row count
unchanged after the second call, every column except `scraped_at` of every
row holds the same value as after the first call, rows not touched by `R`
are entirely unchanged, and `scraped_at` of every touched row is refreshed
to the second call's time. -/
theorem save_cars_upsert_idempotent (db0 : DB) (R : List Rec) (t1 t2 : Nat)
    (hkeys : ∀ r ∈ R, hasKey r = true)
    (hnodup : (keysOf db0.cars).Nodup)
    (n1 n2 : Except Unit Nat) (db1 db2 : DB)
    (hcall1 : save_cars noFail t1 R db0 = (n1, db1))
    (hcall2 : save_cars noFail t2 R db1 = (n2, db2)) :
    db2.cars.length = db1.cars.length ∧
    (∀ (i : Nat) (h2 : i < db2.cars.length) (h1 : i < db1.cars.length),
      rowEqX (db2.cars.get ⟨i, h2⟩) (db1.cars.get ⟨i, h1⟩) ∧
      (Option.some ((db2.cars.get ⟨i, h2⟩).listing_id) ∈ R.map keyOf →
        (db2.cars.get ⟨i, h2⟩).scraped_at = t2) ∧
      (Option.some ((db2.cars.get ⟨i, h2⟩).listing_id) ∉ R.map keyOf →
        db2.cars.get ⟨i, h2⟩ = db1.cars.get ⟨i, h1⟩)) := by
  rw [save_cars_noFail] at hcall1 hcall2
  have hdb1 : db1 = runRecs t1 (seed_districts db0) R :=
    (congrArg Prod.snd hcall1).symm
  have hdb2 : db2 = runRecs t2 (seed_districts db1) R :=
    (congrArg Prod.snd hcall2).symm
  have hseed1 : seed_districts db1 = db1 := by
    refine @seed_districts_stable db0 db1 ?_ ?_
    · rw [hdb1, runRecs_regions]
    · rw [hdb1, runRecs_aliases]
  rw [hseed1] at hdb2
  have htab_r : db1.regions = (seed_districts db0).regions := by
    rw [hdb1, runRecs_regions]
  have htab_a : db1.region_aliases = (seed_districts db0).region_aliases := by
    rw [hdb1, runRecs_aliases]
  have hpres : ∀ r ∈ R, ∀ lid, keyOf r = Option.some lid → lid ≠ "" →
      lid ∈ keysOf db1.cars := by
    intro r hr lid hk hke
    rw [hdb1]
    exact key_mem_runRecs t1 R (seed_districts db0) r lid hr hk hke
  have keys2 : keysOf db2.cars = keysOf db1.cars := by
    rw [hdb2]
    exact keysOf_runRecs_of_mem t2 R db1 hpres
  have hlen : db2.cars.length = db1.cars.length := by
    have h := congrArg List.length keys2
    simpa [keysOf] using h
  have hkeys0 : keysOf (seed_districts db0).cars = keysOf db0.cars := by
    rw [seed_districts_cars]
  have hnd1 : (keysOf db1.cars).Nodup := by
    rw [hdb1]
    exact nodup_keys_runRecs t1 R (seed_districts db0) (by rw [hkeys0]; exact hnodup)
  have hnd2 : (keysOf db2.cars).Nodup := by
    rw [hdb2]
    exact nodup_keys_runRecs t2 R db1 hnd1
  refine ⟨hlen, ?_⟩
  intro i h2 h1
  have h2k : i < (keysOf db2.cars).length := by simpa [keysOf] using h2
  have h1k : i < (keysOf db1.cars).length := by simpa [keysOf] using h1
  have hkeq : (db2.cars.get ⟨i, h2⟩).listing_id =
      (db1.cars.get ⟨i, h1⟩).listing_id := by
    have e1 : (keysOf db2.cars).get ⟨i, h2k⟩ = (db2.cars.get ⟨i, h2⟩).listing_id := by
      simp [keysOf]
    have e2 : (keysOf db1.cars).get ⟨i, h1k⟩ = (db1.cars.get ⟨i, h1⟩).listing_id := by
      simp [keysOf]
    rw [← e1, ← e2]
    exact List.get_of_eq keys2 ⟨i, h2k⟩
  have hlook2 : lookupCar ((db2.cars.get ⟨i, h2⟩).listing_id) db2.cars =
      Option.some (db2.cars.get ⟨i, h2⟩) := lookupCar_get db2.cars hnd2 i h2
  have hlook1 : lookupCar ((db2.cars.get ⟨i, h2⟩).listing_id) db1.cars =
      Option.some (db1.cars.get ⟨i, h1⟩) := by
    rw [hkeq]
    exact lookupCar_get db1.cars hnd1 i h1
  by_cases hke : (db2.cars.get ⟨i, h2⟩).listing_id = ""
  · have hnm : Option.some ((db2.cars.get ⟨i, h2⟩).listing_id) ∉ R.map keyOf := by
      rw [hke]
      exact not_empty_key_mem_map hkeys
    have hunch : lookupCar ((db2.cars.get ⟨i, h2⟩).listing_id) db2.cars =
        lookupCar ((db2.cars.get ⟨i, h2⟩).listing_id) db1.cars := by
      rw [hke, hdb2]
      exact lookup_runRecs_unkeyed t2 R db1 hkeys
    have hroweq : db2.cars.get ⟨i, h2⟩ = db1.cars.get ⟨i, h1⟩ :=
      Option.some.inj (hlook2 ▸ hunch ▸ hlook1)
    exact ⟨rowEqX_of_eq hroweq, fun hmem => absurd hmem hnm, fun _ => hroweq⟩
  · have hlk2 := by
      have h := lookup_runRecs t2 db1 ((db2.cars.get ⟨i, h2⟩).listing_id) hke R
      rw [← hdb2] at h
      exact h
    have hlk1 := by
      have h := lookup_runRecs t1 (seed_districts db0)
        ((db2.cars.get ⟨i, h2⟩).listing_id) hke R
      rw [← hdb1] at h
      exact h
    cases hlast : lastKeyRec ((db2.cars.get ⟨i, h2⟩).listing_id) R with
    | none =>
        rw [hlast] at hlk2
        have hroweq : db2.cars.get ⟨i, h2⟩ = db1.cars.get ⟨i, h1⟩ :=
          Option.some.inj (hlook2 ▸ hlk2 ▸ hlook1)
        refine ⟨rowEqX_of_eq hroweq, fun hmem => ?_, fun _ => hroweq⟩
        exfalso
        obtain ⟨r, hr, hkr⟩ := List.mem_map.mp hmem
        exact lastKeyRec_some_of_mem hr hkr hlast
    | some r =>
        rw [hlast] at hlk2 hlk1
        have hr2 : db2.cars.get ⟨i, h2⟩ =
            rowFor ((db2.cars.get ⟨i, h2⟩).listing_id) r t2
              (match lastRid db1 ((db2.cars.get ⟨i, h2⟩).listing_id) R with
               | Option.some v => Option.some v
               | Option.none =>
                   (lookupCar ((db2.cars.get ⟨i, h2⟩).listing_id) db1.cars).bind
                     Row.region_id) :=
          Option.some.inj (hlook2 ▸ hlk2)
        have hr1 : db1.cars.get ⟨i, h1⟩ =
            rowFor ((db2.cars.get ⟨i, h2⟩).listing_id) r t1
              (match lastRid (seed_districts db0)
                  ((db2.cars.get ⟨i, h2⟩).listing_id) R with
               | Option.some v => Option.some v
               | Option.none =>
                   (lookupCar ((db2.cars.get ⟨i, h2⟩).listing_id)
                     (seed_districts db0).cars).bind Row.region_id) := by
          have hl1 : lookupCar ((db2.cars.get ⟨i, h2⟩).listing_id) db1.cars =
              Option.some (db1.cars.get ⟨i, h1⟩) := hlook1
          rw [hlk1] at hl1
          exact (Option.some.inj hl1).symm
        have hlr_eq : lastRid db1 ((db2.cars.get ⟨i, h2⟩).listing_id) R =
            lastRid (seed_districts db0) ((db2.cars.get ⟨i, h2⟩).listing_id) R :=
          lastRid_congr htab_r htab_a _ R
        have hmem : Option.some ((db2.cars.get ⟨i, h2⟩).listing_id) ∈ R.map keyOf := by
          obtain ⟨hrin, hrk⟩ := lastKeyRec_mem hlast
          exact List.mem_map.mpr ⟨r, hrin, hrk⟩
        have hrid : (match lastRid db1 ((db2.cars.get ⟨i, h2⟩).listing_id) R with
             | Option.some v => Option.some v
             | Option.none =>
                 (lookupCar ((db2.cars.get ⟨i, h2⟩).listing_id) db1.cars).bind
                   Row.region_id) =
            (match lastRid (seed_districts db0)
                ((db2.cars.get ⟨i, h2⟩).listing_id) R with
             | Option.some v => Option.some v
             | Option.none =>
                 (lookupCar ((db2.cars.get ⟨i, h2⟩).listing_id)
                   (seed_districts db0).cars).bind Row.region_id) := by
          rw [hlr_eq]
          cases hlr : lastRid (seed_districts db0)
              ((db2.cars.get ⟨i, h2⟩).listing_id) R with
          | some v => rfl
          | none =>
              show (lookupCar ((db2.cars.get ⟨i, h2⟩).listing_id) db1.cars).bind
                  Row.region_id = _
              rw [hlook1, hr1, hlr]
              rfl
        refine ⟨?_, fun _ => by rw [hr2]; rfl, fun hnm => absurd hmem hnm⟩
        rw [hr2, hr1, hrid]
        exact rowEqX_rowFor _ r t2 t1 _

/-- Witness for the C2 idempotence theorem on a concrete store and batch. -/
theorem save_cars_upsert_idempotent_witness :
    (save_cars noFail 2 [cexRec] (save_cars noFail 1 [cexRec] emptyDB).2).2.cars.length =
      (save_cars noFail 1 [cexRec] emptyDB).2.cars.length :=
  (save_cars_upsert_idempotent emptyDB [cexRec] 1 2
    (by decide) (by decide)
    (save_cars noFail 1 [cexRec] emptyDB).1
    (save_cars noFail 2 [cexRec] (save_cars noFail 1 [cexRec] emptyDB).2).1
    (save_cars noFail 1 [cexRec] emptyDB).2
    (save_cars noFail 2 [cexRec] (save_cars noFail 1 [cexRec] emptyDB).2).2
    rfl rfl).1
